import Mathlib

/-!
Verification development for the MarkSix draw-ingestion, auditing, scoring and
review core.  The definitions below are shallow embeddings of the TypeScript
sources (`src/lib/csv.ts`, `src/lib/official-source.ts`, `src/lib/strategies.ts`,
`src/lib/prediction-service.ts`, `scripts/audit-history.ts`); JavaScript numbers
are modelled as `Nat`/`Int`/`Rat`, JS `Map`s as insertion-ordered association
lists, and the stable `Array.prototype.sort` as an insertion sort with the
matching comparator.
-/

set_option maxHeartbeats 1000000

namespace MarkSix

/-! ### JavaScript string and number primitives -/

/-- Decimal value of a digit-character list, most significant digit first. -/
def digitsVal (l : List Char) : Nat :=
  l.foldl (fun acc c => 10 * acc + (c.toNat - 48)) 0

/-- JS `Number(s)` for an already-trimmed string, restricted to the syntaxes the
repository's data actually carries: a string of decimal digits yields its value
and the empty string yields `0` (as in JS); every other string is mapped to
`none`, standing for `NaN`.  (Signs, decimal points, hex and exponent forms,
which JS would also accept, do not occur in the fields this development
reasons about.) -/
def jsNumNat (s : String) : Option Nat :=
  if s.toList.all Char.isDigit then some (digitsVal s.toList) else none

def jsTrimList (l : List Char) : List Char :=
  ((l.dropWhile Char.isWhitespace).reverse.dropWhile Char.isWhitespace).reverse

/-- JS `String.prototype.trim` (whitespace modelled by `Char.isWhitespace`). -/
def jsTrim (s : String) : String := ⟨jsTrimList s.toList⟩

/-- JS `String.prototype.padStart(width, "0")`. -/
def padStartZero (s : String) (width : Nat) : String :=
  ⟨List.replicate (width - s.length) '0' ++ s.toList⟩

/-- JS `str.split(sep)` for a single-character separator, on the character
list.  Mirrors JS exactly: `""` splits to `[""]` and a trailing separator
produces a trailing empty part. -/
def splitCharList (c : Char) : List Char → List (List Char)
  | [] => [[]]
  | x :: xs =>
    if x = c then [] :: splitCharList c xs
    else
      match splitCharList c xs with
      | [] => [[x]]
      | g :: gs => (x :: g) :: gs

def jsSplitChar (c : Char) (s : String) : List String :=
  (splitCharList c s.toList).map (fun l => ⟨l⟩)

/-! ### Dates

`new Date(text + "T12:00:00Z")` is modelled for ISO `yyyy-mm-dd` texts, the
only shape the repository's CSV data carries.  A valid date becomes the key
`y*10000 + m*100 + d`, which is order-isomorphic to the epoch millisecond
value used by the sources' comparators; any other text stands for an Invalid
Date (`none`). -/

def isLeapYear (y : Nat) : Bool :=
  (y % 4 == 0 && y % 100 != 0) || y % 400 == 0

def daysInMonth (y m : Nat) : Nat :=
  if m = 2 then (if isLeapYear y then 29 else 28)
  else if m = 4 ∨ m = 6 ∨ m = 9 ∨ m = 11 then 30
  else 31

def jsDateKeyIso (text : String) : Option Nat :=
  match text.toList with
  | [y1, y2, y3, y4, h1, m1, m2, h2, d1, d2] =>
    if h1 = '-' ∧ h2 = '-' ∧ ([y1, y2, y3, y4, m1, m2, d1, d2].all Char.isDigit) then
      let y := digitsVal [y1, y2, y3, y4]
      let m := digitsVal [m1, m2]
      let d := digitsVal [d1, d2]
      if 1 ≤ m ∧ m ≤ 12 ∧ 1 ≤ d ∧ d ≤ daysInMonth y m then
        some (y * 10000 + m * 100 + d)
      else none
    else none
  | _ => none

/-! ### Canonical record and the CSV normalizer (`src/lib/csv.ts`)

A CSV row is modelled from the point after the `csv-parse` library call: the
association list of header cell to value cell (header keys unique, as they are
on a JS object). -/

structure CsvDrawRecord where
  issueNo : String
  drawDateKey : Nat
  numbers : List Nat
  specialNumber : Nat
deriving DecidableEq, Repr

abbrev CsvRow := List (String × String)

def ISSUE_KEYS : List String := ["期号", "期數"]
def DATE_KEYS : List String := ["日期"]
def COMBINED_NUMBERS_KEYS : List String := ["中奖号码", "中獎號碼"]
def SPECIAL_KEYS : List String := ["特别号码", "特別號碼"]

/-- `normalizeHeaderKey`: strip BOM characters and trim. -/
def normalizeHeaderKey (key : String) : String :=
  jsTrim ⟨key.toList.filter (fun c => c ≠ '\uFEFF')⟩

/-- `pickValue`: the trimmed value of the first candidate key that is present
with a non-blank value. -/
def pickValue (row : CsvRow) : List String → Option String
  | [] => none
  | k :: ks =>
    match row.lookup k with
    | some v => if jsTrim v ≠ "" then some (jsTrim v) else pickValue row ks
    | none => pickValue row ks

/-- `parseNumbers` of `csv.ts`: split the comma-joined field, `Number` each
trimmed piece, keep the integers in `[1, 49]`. -/
def parseNumbersCsv (value : String) : List Nat :=
  ((jsSplitChar ',' value).map (fun piece => jsNumNat (jsTrim piece))).filterMap
    (fun o =>
      match o with
      | some n => if 1 ≤ n ∧ n ≤ 49 then some n else none
      | none => none)

def rowCellBlank (row : CsvRow) (k : String) : Bool :=
  match row.lookup k with
  | some v => jsTrim v == ""
  | none => true

/-- `parseSplitNumberColumns`: six discrete number columns. -/
def parseSplitNumberColumns (row : CsvRow) : List Nat :=
  match (["中奖号码 1", "中獎號碼 1", "1"]).find? (fun k => ! rowCellBlank row k) with
  | none => []
  | some k1 =>
    let keys := [k1, "2", "3", "4", "5", "6"]
    if keys.any (rowCellBlank row) then []
    else
      (keys.map (fun k => jsNumNat (jsTrim ((row.lookup k).getD "")))).filterMap
        (fun o =>
          match o with
          | some n => if 1 ≤ n ∧ n ≤ 49 then some n else none
          | none => none)

/-- The row-mapping body of `parseDrawCsv`: normalize header keys, extract the
issue, date, numbers and special fields, and validate.  An invalid row becomes
`none` (it is dropped, never an error). -/
def parseCsvRow (rawRow : CsvRow) : Option CsvDrawRecord :=
  let row : CsvRow := rawRow.map (fun kv => (normalizeHeaderKey kv.1, kv.2))
  let issueNo := pickValue row ISSUE_KEYS
  let drawDate :=
    match pickValue row DATE_KEYS with
    | some t => jsDateKeyIso t
    | none => none
  let numbers :=
    match pickValue row COMBINED_NUMBERS_KEYS with
    | some combined => parseNumbersCsv combined
    | none => parseSplitNumberColumns row
  let special : Option Nat :=
    match pickValue row SPECIAL_KEYS with
    | some t => jsNumNat t
    | none => none
  match issueNo, drawDate with
  | some iss, some dk =>
    if numbers.length = 6 then
      match special with
      | some sp =>
        if 1 ≤ sp ∧ sp ≤ 49 then some ⟨iss, dk, numbers, sp⟩ else none
      | none => none
    else none
  | _, _ => none

/-- The sources sort records with the stable
`.sort((a, b) => a.drawDate.getTime() - b.drawDate.getTime())`; an insertion
sort with the matching total comparator models it. -/
def sortByDateKey (l : List CsvDrawRecord) : List CsvDrawRecord :=
  l.insertionSort (fun a b => a.drawDateKey ≤ b.drawDateKey)

/-- `parseDrawCsv`, from the point after the `csv-parse` call: map each row,
drop the invalid ones, sort ascending by draw date.  Note there is no
emptiness check: zero valid rows yields `[]`, not an error. -/
def parseDrawCsv (rows : List CsvRow) : List CsvDrawRecord :=
  sortByDateKey (rows.filterMap parseCsvRow)

/-! ### The official JSON provider (`src/lib/official-source.ts`)

A row of the official payload is modelled from the point after `JSON.parse`
and `normalizeOfficialRows`: an association list from field name to the JS
string coercion of the field's value (an absent field has no entry).  Every
consumer of a row value in the source first coerces it with a template
literal, so the string model is exact for the string and number payloads the
provider serves. -/

abbrev OfficialRow := List (String × String)

/-- `parseDate`: recognizes `yyyy-mm-dd` (noon-UTC) and `dd/mm/yyyy`
(`Date.UTC`) texts.  The trailing generic `new Date(text)` fallback of the
source and the `Date.UTC` rollover for out-of-range day or month components
are outside the payload shapes this development reasons about and are
modelled as `none` or an unnormalized key, respectively. -/
def isIsoDateShape (text : String) : Bool :=
  match text.toList with
  | [y1, y2, y3, y4, h1, m1, m2, h2, d1, d2] =>
    ([y1, y2, y3, y4, m1, m2, d1, d2].all Char.isDigit) && h1 == '-' && h2 == '-'
  | _ => false

def parseDateOfficial (input : Option String) : Option Nat :=
  match input with
  | none => none
  | some s =>
    let text := jsTrim s
    if text = "" then none
    else if isIsoDateShape text then jsDateKeyIso text
    else
      match jsSplitChar '/' text with
      | [a, b, c] =>
        if 1 ≤ a.length ∧ a.length ≤ 2 ∧ 1 ≤ b.length ∧ b.length ≤ 2 ∧ c.length = 4
            ∧ a.toList.all Char.isDigit ∧ b.toList.all Char.isDigit
            ∧ c.toList.all Char.isDigit then
          some (digitsVal c.toList * 10000 + digitsVal b.toList * 100 + digitsVal a.toList)
        else none
      | _ => none

/-- `toInt`: JS `Number` coercion of the field text (an absent field coerces
to `""`, giving `0`) with the `Number.isInteger` check.  Negative integers,
which JS would keep here, are mapped to `none`; every caller filters to
`[1, 49]`, so the observable behavior agrees. -/
def toIntOfficial (v : Option String) : Option Nat :=
  jsNumNat (jsTrim (v.getD ""))

/-- Maximal runs of digit characters, as produced by
`split(/[^\d]+/).filter(Boolean)`. -/
def digitRunsAux (acc : List Char) : List Char → List (List Char)
  | [] => if acc.isEmpty then [] else [acc.reverse]
  | c :: cs =>
    if c.isDigit then digitRunsAux (c :: acc) cs
    else if acc.isEmpty then digitRunsAux [] cs
    else acc.reverse :: digitRunsAux [] cs

/-- `parseNumberList`: digit runs of the coerced text, as numbers in `[1, 49]`. -/
def parseNumberListOfficial (v : Option String) : List Nat :=
  ((digitRunsAux [] (jsTrim (v.getD "")).toList).map digitsVal).filter
    (fun n => decide (1 ≤ n ∧ n ≤ 49))

/-- The `/^\d{2}\/\d{3}$/` test of `extractIssueNo`. -/
def issueNoShape (text : String) : Bool :=
  match text.toList with
  | [a, b, s, c, d, e] =>
    a.isDigit && b.isDigit && (s == '/') && c.isDigit && d.isDigit && e.isDigit
  | _ => false

def ISSUE_FIELDS : List String := ["issueNo", "drawNo", "draw", "issue", "no", "period", "id"]
def DATE_FIELDS : List String := ["date", "drawDate", "draw_date", "drawdate", "dt"]
def N_FIELDS : List String :=
  ["n1", "n2", "n3", "n4", "n5", "n6", "no1", "no2", "no3", "no4", "no5", "no6"]
def LIST_FIELDS : List String := ["numbers", "nos", "no", "result", "main"]
def SPECIAL_FIELDS : List String :=
  ["specialNumber", "special", "sno", "sn", "bonus", "extra", "n7", "no7"]
def RESULT_LIKE_FIELDS : List String := ["result", "no", "numbers"]

def extractIssueNo (row : OfficialRow) : Option String :=
  (ISSUE_FIELDS.map (fun k => jsTrim ((row.lookup k).getD ""))).find? issueNoShape

def extractDate (row : OfficialRow) : Option Nat :=
  (DATE_FIELDS.map (fun k => parseDateOfficial (row.lookup k))).findSome? id

def inRange49 (o : Option Nat) : Option Nat :=
  match o with
  | some n => if 1 ≤ n ∧ n ≤ 49 then some n else none
  | none => none

def extractNumbers (row : OfficialRow) : List Nat :=
  let nFields := (N_FIELDS.map (fun k => toIntOfficial (row.lookup k))).filterMap inRange49
  if 6 ≤ nFields.length then nFields.take 6
  else
    match (LIST_FIELDS.map (fun k => parseNumberListOfficial (row.lookup k))).find?
        (fun nums => decide (6 ≤ nums.length)) with
    | some nums => nums.take 6
    | none => []

def extractSpecial (row : OfficialRow) : Option Nat :=
  match (SPECIAL_FIELDS.map (fun k => toIntOfficial (row.lookup k))).findSome? inRange49 with
  | some n => some n
  | none =>
    match (RESULT_LIKE_FIELDS.map (fun k => parseNumberListOfficial (row.lookup k))).find?
        (fun arr => decide (7 ≤ arr.length)) with
    | some arr => arr[6]?
    | none => none

/-- The row-loop body of `loadOfficialRecords`: a row missing any of the four
slots is skipped (dropped, never an error). -/
def extractRecordOfficial (row : OfficialRow) : Option CsvDrawRecord :=
  match extractIssueNo row, extractDate row, extractSpecial row with
  | some iss, some dk, some sp =>
    let numbers := extractNumbers row
    if numbers.length = 6 then some ⟨iss, dk, numbers, sp⟩ else none
  | _, _, _ => none

def EMPTY_OFFICIAL_MSG : String :=
  "Official source parsed 0 records. Please verify OFFICIAL_RESULT_URL format."

/-- `loadOfficialRecords`, modelled from the point after the payload has been
fetched and normalized into a row list: zero usable rows is a thrown error;
otherwise the usable rows, sorted ascending by draw date. -/
def loadOfficialCore (rows : List OfficialRow) : Except String (List CsvDrawRecord) :=
  let out := rows.filterMap extractRecordOfficial
  if out.length = 0 then Except.error EMPTY_OFFICIAL_MSG
  else Except.ok (sortByDateKey out)

/-! ### The strategy scoring engine (`src/lib/strategies.ts`)

A stored draw enters the engine only through `decodeNumbers` (the JSON
decoding of its `numbersJson` column), so a draw is modelled by that number
list.  JS `Map`s over numbers are insertion-ordered association lists with
the `get`/`set` semantics of the source; scores are exact rationals. -/

structure Draw where
  numbers : List Nat
deriving DecidableEq, Repr

/-- `decodeNumbers`: `JSON.parse(draw.numbersJson)`. -/
def decodeNumbers (draw : Draw) : List Nat := draw.numbers

abbrev JsMap := List (Nat × ℚ)

def jsGet (m : JsMap) (k : Nat) : Option ℚ :=
  (m.find? (fun p => p.1 == k)).map (fun p => p.2)

/-- `Map.set`: update an existing key in place (keeping its position) or
append a new binding. -/
def jsSet (m : JsMap) (k : Nat) (v : ℚ) : JsMap :=
  if m.any (fun p => p.1 == k) then
    m.map (fun p => if p.1 = k then (k, v) else p)
  else m ++ [(k, v)]

def ALL_NUMBERS : List Nat := (List.range 49).map (fun i => i + 1)

/-- `omissionMap`: every number starts at `draws.length + 1`; a number seen at
0-based window index `idx` is lowered to `idx + 1` if that is smaller. -/
def omissionMap (draws : List Draw) : JsMap :=
  draws.enum.foldl
    (fun m p =>
      (decodeNumbers p.2).foldl
        (fun m' n =>
          if ((jsGet m' n).getD 9999) > ((p.1 + 1 : Nat) : ℚ) then
            jsSet m' n ((p.1 + 1 : Nat) : ℚ)
          else m')
        m)
    (ALL_NUMBERS.map (fun n => (n, ((draws.length + 1 : Nat) : ℚ))))

/-- `frequencyMap`: appearance counts over the window. -/
def frequencyMap (draws : List Draw) : JsMap :=
  draws.foldl
    (fun m draw =>
      (decodeNumbers draw).foldl (fun m' n => jsSet m' n (((jsGet m' n).getD 0) + 1)) m)
    (ALL_NUMBERS.map (fun n => (n, (0 : ℚ))))

/-- `weightedRecencyMap`: each appearance at 0-based index `i` contributes
`1 / (1 + i)`. -/
def weightedRecencyMap (draws : List Draw) : JsMap :=
  draws.enum.foldl
    (fun m p =>
      (decodeNumbers p.2).foldl
        (fun m' n => jsSet m' n (((jsGet m' n).getD 0) + 1 / (1 + (p.1 : ℚ))))
        m)
    (ALL_NUMBERS.map (fun n => (n, (0 : ℚ))))

def listMin : List ℚ → ℚ
  | [] => 0
  | x :: xs => xs.foldl min x

def listMax : List ℚ → ℚ
  | [] => 0
  | x :: xs => xs.foldl max x

/-- `normalize`: min-max over the map's values; `max - min || 1` is the JS
falsy-zero branch, so an all-equal map divides by 1 and becomes all zeros.
(`Math.min`/`Math.max` of a spread nonempty value list are the folds below;
the engine's maps always have the 49 keys.) -/
def normalize (m : JsMap) : JsMap :=
  let values := m.map (fun p => p.2)
  let mn := listMin values
  let mx := listMax values
  let range : ℚ := if mx - mn = 0 then 1 else mx - mn
  m.map (fun p => (p.1, (p.2 - mn) / range))

/-- `Number.prototype.toFixed(4)`: the integer `n` with `n / 10^4` closest to
the value, ties to the larger `n`, rendered with 4 decimal places. -/
def toFixed4 (q : ℚ) : String :=
  let m : Int := Int.floor (q * 10000 + 1 / 2)
  let a : Nat := m.natAbs
  (if m < 0 then "-" else "") ++ Nat.repr (a / 10000) ++ "." ++
    padStartZero (Nat.repr (a % 10000)) 4

structure Pick where
  number : Nat
  rank : Nat
  score : ℚ
  reason : String
deriving DecidableEq, Repr

inductive StrategyId
  | balanced_v1
  | hot_v1
  | cold_rebound_v1
  | momentum_v1
deriving DecidableEq, Repr

def strategyIdText : StrategyId → String
  | .balanced_v1 => "balanced_v1"
  | .hot_v1 => "hot_v1"
  | .cold_rebound_v1 => "cold_rebound_v1"
  | .momentum_v1 => "momentum_v1"

/-- The `name` entries of `strategyMeta`. -/
def strategyName : StrategyId → String
  | .balanced_v1 => "组合策略 v1（默认）"
  | .hot_v1 => "热号策略 v1"
  | .cold_rebound_v1 => "冷号回补 v1"
  | .momentum_v1 => "近期动量 v1"

structure StrategyResult where
  strategy : StrategyId
  strategyVersion : String
  picks : List Pick
deriving DecidableEq, Repr

/-- The comparator relation of `sort((a, b) => b[1] - a[1])`: `a` may precede
`b` exactly when `a`'s score is at least `b`'s.  `Array.prototype.sort` is
stable, so the JS result is the stable descending sort that
`List.insertionSort` with this relation computes. -/
def scoreGE (a b : Nat × ℚ) : Prop := b.2 ≤ a.2

instance : DecidableRel scoreGE := fun a b => (inferInstance : Decidable (b.2 ≤ a.2))

instance : IsTotal (Nat × ℚ) scoreGE :=
  ⟨fun a b => (le_total b.2 a.2).elim Or.inl Or.inr⟩

instance : IsTrans (Nat × ℚ) scoreGE :=
  ⟨fun _ _ _ h₁ h₂ => le_trans h₂ h₁⟩

def sortByScoreDesc (scores : JsMap) : JsMap :=
  scores.insertionSort scoreGE

/-- The first, parity-guarded greedy pass of `pickTopSix`: walk the sorted
candidates, stop at 6, and skip a candidate whose acceptance would make a
selection of length at least 4 entirely odd or entirely even. -/
def firstPass : JsMap → JsMap → JsMap
  | [], selected => selected
  | item :: rest, selected =>
    if selected.length = 6 then selected
    else
      let next := (selected ++ [item]).map (fun p => p.1)
      let oddCount := (next.filter (fun n => n % 2 == 1)).length
      if 4 ≤ next.length ∧ (oddCount = 0 ∨ oddCount = next.length) then
        firstPass rest selected
      else firstPass rest (selected ++ [item])

/-- The fallback `while` loop of `pickTopSix`: refill from the still-unselected
sorted candidates (the skipped ones included), waiving the parity constraint.
Each iteration grows the selection by one or stops, so 6 units of fuel are
exactly the iterations the loop can make. -/
def fillLoop (sorted : JsMap) : JsMap → Nat → JsMap
  | selected, 0 => selected
  | selected, fuel + 1 =>
    if selected.length < 6 then
      match sorted.find? (fun it => ! selected.any (fun p => p.1 == it.1)) with
      | some fb => fillLoop sorted (selected ++ [fb]) fuel
      | none => selected
    else selected

def pickTopSix (scores : JsMap) (reasonPfx : String) : List Pick :=
  let sorted := sortByScoreDesc scores
  let selected := fillLoop sorted (firstPass sorted []) 6
  selected.enum.map (fun p =>
    { number := p.2.1
      rank := p.1 + 1
      score := p.2.2
      reason := reasonPfx ++ " score=" ++ toFixed4 p.2.2 })

/-- The per-strategy weight combination of the three normalized signals. -/
def compositeScore (strategy : StrategyId) (f o m : ℚ) : ℚ :=
  match strategy with
  | .hot_v1 => f * 0.8 + m * 0.2
  | .cold_rebound_v1 => o * 0.7 + m * 0.3
  | .momentum_v1 => m * 0.9 + f * 0.1
  | .balanced_v1 => f * 0.45 + o * 0.35 + m * 0.2

/-- The composite map of `generateStrategyResult`: built by setting each of
`ALL_NUMBERS` in order into a fresh map, so its entry list is exactly this
map over the universe. -/
def compositeEntries (strategy : StrategyId) (window : List Draw) : JsMap :=
  let freq := normalize (frequencyMap window)
  let omission := normalize (omissionMap window)
  let momentum := normalize (weightedRecencyMap window)
  ALL_NUMBERS.map (fun n =>
    (n, compositeScore strategy ((jsGet freq n).getD 0) ((jsGet omission n).getD 0)
      ((jsGet momentum n).getD 0)))

def generateStrategyResult (strategy : StrategyId) (recentDraws : List Draw) : StrategyResult :=
  let window := recentDraws.take (min 80 recentDraws.length)
  { strategy := strategy
    strategyVersion := strategyIdText strategy
    picks := pickTopSix (compositeEntries strategy window) (strategyName strategy) }

def allStrategies : List StrategyId :=
  [.balanced_v1, .hot_v1, .cold_rebound_v1, .momentum_v1]

/-! ### The issue sequencer and review engine (`src/lib/prediction-service.ts`) -/

/-- `nextIssueNo`: split on `/`; `year` is the first part, `no` the second
(which may be missing, JS `undefined`); `Number(no)` with the `NaN` guard
(`Number(undefined)` is `NaN`); on success, render the incremented sequence
zero-padded to the width of the input's sequence text. -/
def nextIssueNo (issueNo : String) : String :=
  let parts := jsSplitChar '/' issueNo
  let year := parts.getD 0 ""
  match parts[1]? with
  | none => issueNo
  | some no =>
    match jsNumNat no with
    | none => issueNo
    | some seq =>
      if year = "" then issueNo
      else year ++ "/" ++ padStartZero (Nat.repr (seq + 1)) no.length

inductive PredictionStatus
  | PENDING
  | REVIEWED
deriving DecidableEq, Repr

/-- A stored draw row, with the fields `reviewIssue` reads (`numbersJson`
already decoded; timestamps, which the review path never reads, omitted). -/
structure DrawRow where
  id : Nat
  issueNo : String
  numbers : List Nat
  specialNumber : Nat
deriving DecidableEq, Repr

structure PredictionRunRow where
  id : Nat
  issueNo : String
  status : PredictionStatus
  hitCount : Option Nat
  hitRate : Option ℚ
  picks : List Pick
deriving DecidableEq, Repr

structure ReviewRow where
  runId : Nat
  drawId : Nat
  matchedNumbers : List Nat
  hitCount : Nat
  hitRate : ℚ
deriving DecidableEq, Repr

/-- The slice of the store that `reviewIssue` touches (timestamp columns,
which the claims do not mention and the review path only writes, omitted). -/
structure Db where
  draws : List DrawRow
  runs : List PredictionRunRow
  reviews : List ReviewRow
deriving DecidableEq, Repr

/-- `Number((hitCount / 6).toFixed(4))`: round to 4 decimal places, ties to
the larger value.  On the seven possible hit rates this agrees exactly with
the JS float computation. -/
def round4 (q : ℚ) : ℚ := ((Int.floor (q * 10000 + 1 / 2) : Int) : ℚ) / 10000

def sortAscNat (l : List Nat) : List Nat :=
  l.insertionSort (fun a b => a ≤ b)

/-- Matched numbers of one run against the winning set:
`run.picks.map(p => p.number).filter(n => winning.has(n)).sort((a, b) => a - b)`. -/
def matchedOf (winning : List Nat) (run : PredictionRunRow) : List Nat :=
  sortAscNat ((run.picks.map (fun p => p.number)).filter (fun n => winning.contains n))

/-- One iteration of the review loop: mark the run reviewed with its hit
statistics, and upsert (by run id) the single review row. -/
def applyReview (draw : DrawRow) (run : PredictionRunRow) (db : Db) : Db :=
  let matched := matchedOf draw.numbers run
  let hitCount := matched.length
  let hitRate := round4 ((hitCount : ℚ) / 6)
  let runs' := db.runs.map (fun r =>
    if r.id = run.id then
      { r with status := PredictionStatus.REVIEWED
               hitCount := some hitCount
               hitRate := some hitRate }
    else r)
  let reviews' :=
    if db.reviews.any (fun rv => rv.runId == run.id) then
      db.reviews.map (fun rv =>
        if rv.runId = run.id then
          { rv with matchedNumbers := matched, hitCount := hitCount, hitRate := hitRate }
        else rv)
    else
      db.reviews ++
        [{ runId := run.id, drawId := draw.id, matchedNumbers := matched,
           hitCount := hitCount, hitRate := hitRate }]
  { db with runs := runs', reviews := reviews' }

/-- The `findMany` of still-pending runs for the issue. -/
def pendingFor (db : Db) (issueNo : String) : List PredictionRunRow :=
  db.runs.filter (fun r =>
    r.issueNo == issueNo && decide (r.status = PredictionStatus.PENDING))

/-- `reviewIssue`: no stored draw for the issue yields `{ reviewed: 0 }` with
no writes; otherwise every pending run for the issue is reviewed in order. -/
def reviewIssue (db : Db) (issueNo : String) : Db × Nat :=
  match db.draws.find? (fun d => d.issueNo == issueNo) with
  | none => (db, 0)
  | some draw =>
    let pendingRuns := pendingFor db issueNo
    (pendingRuns.foldl (fun acc run => applyReview draw run acc) db, pendingRuns.length)

/-! ### The continuity auditor (`scripts/audit-history.ts`)

A stored draw as the audit reads it: `numbersJson` already decoded (to
arbitrary integers — the audit checks ranges itself) and `drawDate.getTime()`
as a natural-number timestamp. -/

structure AuditDraw where
  issueNo : String
  numbers : List Int
  specialNumber : Int
  drawDateTime : Nat
deriving DecidableEq, Repr

/-- `parseIssue`: year is the first `/`-part (must be non-blank), the sequence
is `Number` of the second part with the `NaN` guard. -/
def parseIssue (issueNo : String) : Option (String × Nat) :=
  let parts := jsSplitChar '/' issueNo
  let year := parts.getD 0 ""
  match parts[1]? with
  | none => none
  | some t =>
    match jsNumNat t with
    | none => none
    | some seq => if year = "" then none else some (year, seq)

def checkNumbersLoop (seen : List Int) : List Int → List String
  | [] => []
  | n :: rest =>
    ((if n < 1 ∨ n > 49 then ["number out of range: " ++ toString n] else []) ++
      (if seen.contains n then ["duplicate number in draw: " ++ toString n] else [])) ++
      checkNumbersLoop (n :: seen) rest

/-- `checkNumbers`: count, range and duplicate problems of a number list. -/
def checkNumbers (numbers : List Int) : List String :=
  (if numbers.length ≠ 6 then ["main numbers count != 6"] else []) ++
    checkNumbersLoop [] numbers

/-- `byYear.get(year) ?? []` / push / `set`: append the sequence under its
year, keeping the JS `Map` insertion order. -/
def byYearAdd (m : List (String × List Nat)) (year : String) (seq : Nat) :
    List (String × List Nat) :=
  if m.any (fun p => p.1 == year) then
    m.map (fun p => if p.1 = year then (p.1, p.2 ++ [seq]) else p)
  else m ++ [(year, [seq])]

structure AuditState where
  problems : List String
  byYear : List (String × List Nat)
  lastTime : Nat
deriving Repr

/-- The per-record loop body of the audit: a record whose issue id does not
parse is reported and skipped (`continue`); otherwise its number problems,
the date-order check against `lastTime`, and the year grouping. -/
def auditStep (st : AuditState) (d : AuditDraw) : AuditState :=
  match parseIssue d.issueNo with
  | none => { st with problems := st.problems ++ [d.issueNo ++ ": invalid issue format"] }
  | some (year, seq) =>
    let numberProblems := checkNumbers d.numbers ++
      (if d.specialNumber < 1 ∨ d.specialNumber > 49 then
        ["special number out of range: " ++ toString d.specialNumber]
      else []) ++
      (if d.numbers.contains d.specialNumber then
        ["special number repeated in main numbers"]
      else [])
    let p1 :=
      if numberProblems ≠ [] then
        st.problems ++ [d.issueNo ++ ": " ++ String.intercalate "; " numberProblems]
      else st.problems
    let p2 :=
      if d.drawDateTime < st.lastTime then
        p1 ++ [d.issueNo ++ ": drawDate is not non-decreasing"]
      else p1
    { problems := p2
      byYear := byYearAdd st.byYear year seq
      lastTime := max st.lastTime d.drawDateTime }

/-- `[...new Set(seqList)].sort((a, b) => a - b)`. -/
def dedupSortAsc (l : List Nat) : List Nat :=
  l.dedup.insertionSort (fun a b => a ≤ b)

/-- The gap loop: every integer from the observed minimum to the observed
maximum that is not in the observed set. -/
def missingSeqs (sorted : List Nat) : List Nat :=
  let mn := sorted.headD 0
  let mx := sorted.getLastD 0
  ((List.range (mx + 1 - mn)).map (fun i => i + mn)).filter
    (fun i => ! sorted.contains i)

/-- The per-year body of the audit's second loop: one problem line when the
year has gaps, reporting the gap count and the first 10 missing sequences. -/
def yearProblem (year : String) (seqList : List Nat) : List String :=
  let missing := missingSeqs (dedupSortAsc seqList)
  if missing ≠ [] then
    [year ++ ": missing issue seq count=" ++ Nat.repr missing.length ++ " sample=" ++
      String.intercalate "," ((missing.take 10).map Nat.repr)]
  else []

/-- The full accumulated problem list of one audit run: the per-record
problems in record order, then the per-year gap problems with the years
sorted (`localeCompare` on the repository's digit-string years is the
lexicographic order used here). -/
def auditProblems (draws : List AuditDraw) : List String :=
  let st := draws.foldl auditStep ⟨[], [], 0⟩
  st.problems ++
    ((st.byYear.insertionSort (fun a b => a.1 ≤ b.1)).map
      (fun p => yearProblem p.1 p.2)).flatten

/-- The console report of `audit-history.ts` `run`, line by line: the summary
count, then at most the first 200 problem details, then a truncation note
when more exist. -/
def auditReport (draws : List AuditDraw) : List String :=
  if draws.length = 0 then ["No draw records found."]
  else
    let problems := auditProblems draws
    ["Audit summary: total_draws=" ++ Nat.repr draws.length] ++
      (if problems.length = 0 then ["Audit passed: no problems found."]
      else
        ["Audit found " ++ Nat.repr problems.length ++ " problem(s):"] ++
          (problems.take 200).map (fun p => "- " ++ p) ++
          (if 200 < problems.length then
            ["... truncated " ++ Nat.repr (problems.length - 200) ++ " more problem(s)"]
          else []))

/-! ### Concrete inputs used by the closed theorems below -/

/-- A CSV row whose six numbers contain a duplicate and whose special number
also appears among them; every field-level check of `parseDrawCsv` passes. -/
def c1DemoRow : CsvRow :=
  [("期号", "08/001"), ("日期", "2008-01-05"), ("中奖号码", "1,1,2,3,4,5"), ("特别号码", "1")]

/-- A CSV row failing validation (no date and no numbers). -/
def c2BadCsvRow : CsvRow := [("期号", "08/001")]

/-- An official row with every slot valid. -/
def c2GoodOfficialRow : OfficialRow :=
  [("issueNo", "25/001"), ("date", "2025-01-02"), ("n1", "1"), ("n2", "2"), ("n3", "3"),
    ("n4", "4"), ("n5", "5"), ("n6", "6"), ("sno", "7")]

/-- An official row failing validation (no usable slots). -/
def c2BadOfficialRow : OfficialRow := [("foo", "bar")]


/-- The stored runs with a given run id (the store's `id` column is unique,
so this is at most one row). -/
def runsById (db : Db) (i : Nat) : List PredictionRunRow :=
  db.runs.filter (fun r => r.id == i)

/-- The stored review rows for a given run id (`runId` is unique in the
store, so this is at most one row). -/
def reviewsFor (db : Db) (i : Nat) : List ReviewRow :=
  db.reviews.filter (fun rv => rv.runId == i)

/-- A one-draw, one-pending-run store used by the closed review witnesses. -/
def c5DemoRun : PredictionRunRow :=
  { id := 1, issueNo := "25/001", status := PredictionStatus.PENDING,
    hitCount := none, hitRate := none,
    picks := [⟨1, 1, 0, "a"⟩, ⟨2, 2, 0, "a"⟩, ⟨10, 3, 0, "a"⟩] }

def c5DemoDb : Db :=
  { draws := [⟨1, "25/001", [1, 2, 3, 4, 5, 6], 7⟩],
    runs := [c5DemoRun],
    reviews := [] }

/-! ### List minimum/maximum helper lemmas -/

theorem foldl_min_le_init : ∀ (xs : List ℚ) (a : ℚ), xs.foldl min a ≤ a
  | [], a => le_refl a
  | x :: xs, a => le_trans (foldl_min_le_init xs (min a x)) (min_le_left a x)

theorem foldl_min_le_mem : ∀ (xs : List ℚ) (v a : ℚ), v ∈ xs → xs.foldl min a ≤ v
  | [], v, _, h => absurd h (List.not_mem_nil v)
  | x :: xs, v, a, h => by
    rcases List.mem_cons.mp h with h1 | h2
    · subst h1
      exact le_trans (foldl_min_le_init xs (min a v)) (min_le_right a v)
    · exact foldl_min_le_mem xs v (min a x) h2

theorem foldl_min_mem : ∀ (xs : List ℚ) (a : ℚ), xs.foldl min a = a ∨ xs.foldl min a ∈ xs
  | [], _ => Or.inl rfl
  | x :: xs, a => by
    rcases foldl_min_mem xs (min a x) with h | h
    · rcases min_choice a x with hc | hc
      · exact Or.inl (by rw [List.foldl_cons, h, hc])
      · refine Or.inr ?_
        rw [List.foldl_cons, h, hc]
        exact List.mem_cons_self x xs
    · exact Or.inr (List.mem_cons_of_mem x h)

theorem init_le_foldl_max : ∀ (xs : List ℚ) (a : ℚ), a ≤ xs.foldl max a
  | [], a => le_refl a
  | x :: xs, a => le_trans (le_max_left a x) (init_le_foldl_max xs (max a x))

theorem mem_le_foldl_max : ∀ (xs : List ℚ) (v a : ℚ), v ∈ xs → v ≤ xs.foldl max a
  | [], v, _, h => absurd h (List.not_mem_nil v)
  | x :: xs, v, a, h => by
    rcases List.mem_cons.mp h with h1 | h2
    · subst h1
      exact le_trans (le_max_right a v) (init_le_foldl_max xs (max a v))
    · exact mem_le_foldl_max xs v (max a x) h2

theorem foldl_max_mem : ∀ (xs : List ℚ) (a : ℚ), xs.foldl max a = a ∨ xs.foldl max a ∈ xs
  | [], _ => Or.inl rfl
  | x :: xs, a => by
    rcases foldl_max_mem xs (max a x) with h | h
    · rcases max_choice a x with hc | hc
      · exact Or.inl (by rw [List.foldl_cons, h, hc])
      · refine Or.inr ?_
        rw [List.foldl_cons, h, hc]
        exact List.mem_cons_self x xs
    · exact Or.inr (List.mem_cons_of_mem x h)

theorem listMin_le {l : List ℚ} {v : ℚ} (h : v ∈ l) : listMin l ≤ v := by
  cases l with
  | nil => exact absurd h (List.not_mem_nil v)
  | cons x xs =>
    show xs.foldl min x ≤ v
    rcases List.mem_cons.mp h with h1 | h2
    · exact h1 ▸ foldl_min_le_init xs x
    · exact foldl_min_le_mem xs v x h2

theorem le_listMax {l : List ℚ} {v : ℚ} (h : v ∈ l) : v ≤ listMax l := by
  cases l with
  | nil => exact absurd h (List.not_mem_nil v)
  | cons x xs =>
    show v ≤ xs.foldl max x
    rcases List.mem_cons.mp h with h1 | h2
    · exact h1 ▸ init_le_foldl_max xs x
    · exact mem_le_foldl_max xs v x h2

theorem listMin_mem {l : List ℚ} (h : l ≠ []) : listMin l ∈ l := by
  cases l with
  | nil => exact absurd rfl h
  | cons x xs =>
    show xs.foldl min x ∈ x :: xs
    rcases foldl_min_mem xs x with h1 | h1
    · rw [h1]
      exact List.mem_cons_self x xs
    · exact List.mem_cons_of_mem x h1

theorem listMax_mem {l : List ℚ} (h : l ≠ []) : listMax l ∈ l := by
  cases l with
  | nil => exact absurd rfl h
  | cons x xs =>
    show xs.foldl max x ∈ x :: xs
    rcases foldl_max_mem xs x with h1 | h1
    · rw [h1]
      exact List.mem_cons_self x xs
    · exact List.mem_cons_of_mem x h1

theorem normalize_eq (m : JsMap) :
    normalize m = m.map (fun p =>
      (p.1, (p.2 - listMin (m.map (fun q => q.2))) /
        (if listMax (m.map (fun q => q.2)) - listMin (m.map (fun q => q.2)) = 0 then 1
        else listMax (m.map (fun q => q.2)) - listMin (m.map (fun q => q.2))))) := rfl

/-! ### C8: min-max normalization -/

/-- C8: for a signal map in which all values are equal, min-max normalization
returns 0 for every entry (a constant zero vector, not a failure or division
by zero); for a map whose minimum and maximum differ, each value `v` is
mapped to `(v - min) / (max - min)`, and every normalized value lies in
`[0, 1]`. -/
theorem c8_normalize_minmax (m : JsMap) :
    ((∀ v ∈ m.map (fun p => p.2), ∀ w ∈ m.map (fun p => p.2), v = w) →
      normalize m = m.map (fun p => (p.1, (0 : ℚ)))) ∧
    (listMin (m.map (fun p => p.2)) ≠ listMax (m.map (fun p => p.2)) →
      normalize m = m.map (fun p =>
        (p.1, (p.2 - listMin (m.map (fun q => q.2))) /
          (listMax (m.map (fun q => q.2)) - listMin (m.map (fun q => q.2))))) ∧
      (normalize m).all (fun p => decide (0 ≤ p.2 ∧ p.2 ≤ 1)) = true) := by
  constructor
  · intro hall
    rw [normalize_eq]
    refine List.map_congr_left (fun p hp => ?_)
    have hvne : m.map (fun q => q.2) ≠ [] := by
      intro hemp
      have : p.2 ∈ m.map (fun q => q.2) := List.mem_map.mpr ⟨p, hp, rfl⟩
      rw [hemp] at this
      exact List.not_mem_nil _ this
    have heq : listMax (m.map (fun q => q.2)) = listMin (m.map (fun q => q.2)) :=
      hall _ (listMax_mem hvne) _ (listMin_mem hvne)
    have hpv : p.2 = listMin (m.map (fun q => q.2)) :=
      hall _ (List.mem_map.mpr ⟨p, hp, rfl⟩) _ (listMin_mem hvne)
    rw [heq, sub_self, if_pos rfl, ← hpv, sub_self, zero_div]
  · intro hne
    have hvne : m.map (fun p => p.2) ≠ [] := by
      intro h
      rw [h] at hne
      exact hne rfl
    have hlemx : listMin (m.map (fun p => p.2)) ≤ listMax (m.map (fun p => p.2)) :=
      listMin_le (listMax_mem hvne)
    have hlt : listMin (m.map (fun p => p.2)) < listMax (m.map (fun p => p.2)) :=
      lt_of_le_of_ne hlemx hne
    have hrange : listMax (m.map (fun p => p.2)) - listMin (m.map (fun p => p.2)) ≠ 0 :=
      sub_ne_zero.mpr (Ne.symm hne)
    have hpos : 0 < listMax (m.map (fun p => p.2)) - listMin (m.map (fun p => p.2)) :=
      sub_pos.mpr hlt
    have hform : normalize m = m.map (fun p =>
        (p.1, (p.2 - listMin (m.map (fun q => q.2))) /
          (listMax (m.map (fun q => q.2)) - listMin (m.map (fun q => q.2))))) := by
      rw [normalize_eq]
      refine List.map_congr_left (fun p hp => ?_)
      rw [if_neg hrange]
    refine ⟨hform, ?_⟩
    rw [List.all_eq_true]
    intro p hp
    rw [hform] at hp
    obtain ⟨q, hq, hqe⟩ := List.mem_map.mp hp
    have hv : q.2 ∈ m.map (fun r => r.2) := List.mem_map.mpr ⟨q, hq, rfl⟩
    have h1 : listMin (m.map (fun r => r.2)) ≤ q.2 := listMin_le hv
    have h2 : q.2 ≤ listMax (m.map (fun r => r.2)) := le_listMax hv
    rw [decide_eq_true_eq, ← hqe]
    exact ⟨div_nonneg (sub_nonneg.mpr h1) (le_of_lt hpos),
      (div_le_one hpos).mpr (sub_le_sub_right h2 _)⟩

/-- Closed witness for C8: the degenerate all-equal map normalizes to the
constant zero vector, and a non-degenerate map normalizes into `[0, 1]`. -/
theorem c8_witness :
    normalize [(1, (3 : ℚ)), (2, 3)] = ([(1, (3 : ℚ)), (2, 3)] : JsMap).map (fun p => (p.1, (0 : ℚ))) ∧
    (normalize [(1, (2 : ℚ)), (2, 4)]).all (fun p => decide (0 ≤ p.2 ∧ p.2 ≤ 1)) = true :=
  ⟨(c8_normalize_minmax [(1, (3 : ℚ)), (2, 3)]).1 (by decide),
    ((c8_normalize_minmax [(1, (2 : ℚ)), (2, 4)]).2 (by decide)).2⟩

/-! ### C6: the issue sequencer -/

theorem splitCharList_not_mem {c : Char} : ∀ {l : List Char}, c ∉ l → splitCharList c l = [l]
  | [], _ => rfl
  | x :: xs, h => by
    have hx : ¬ x = c := fun he => h (he ▸ List.mem_cons_self x xs)
    have hxs : c ∉ xs := fun hm => h (List.mem_cons_of_mem x hm)
    rw [splitCharList, if_neg hx, splitCharList_not_mem hxs]

theorem splitCharList_append {c : Char} :
    ∀ {y : List Char} (s : List Char), c ∉ y →
      splitCharList c (y ++ c :: s) = y :: splitCharList c s
  | [], s, _ => by
    rw [List.nil_append, splitCharList, if_pos rfl]
  | x :: y', s, h => by
    have hx : ¬ x = c := fun he => h (he ▸ List.mem_cons_self x y')
    have hy : c ∉ y' := fun hm => h (List.mem_cons_of_mem x hm)
    rw [List.cons_append, splitCharList, if_neg hx, splitCharList_append s hy]

theorem slash_not_mem_of_digits {s : List Char} (h : ∀ ch ∈ s, ch.isDigit) : '/' ∉ s := by
  intro hm
  have := h '/' hm
  simp at this

theorem nextIssueNo_of_no_second {input : String}
    (h : (jsSplitChar '/' input)[1]? = none) : nextIssueNo input = input := by
  simp only [nextIssueNo, h]

theorem nextIssueNo_of_nan {input : String} {t : String}
    (h : (jsSplitChar '/' input)[1]? = some t) (h2 : jsNumNat t = none) :
    nextIssueNo input = input := by
  simp only [nextIssueNo, h, h2]

theorem nextIssueNo_of_seq {input : String} {t : String} {seq : Nat}
    (h : (jsSplitChar '/' input)[1]? = some t) (h2 : jsNumNat t = some seq) :
    nextIssueNo input =
      if (jsSplitChar '/' input).getD 0 "" = "" then input
      else (jsSplitChar '/' input).getD 0 "" ++ "/" ++
        padStartZero (Nat.repr (seq + 1)) t.length := by
  simp only [nextIssueNo, h, h2]

/-- C6 (amended): an issue id of the form `year '/' digits` advances to the
same year with the sequence incremented and re-rendered zero-padded to the
width of the input's sequence text; an input the code fails to parse — no
second `/`-part, a blank year, or a second part that JS `Number` maps to
`NaN` — is returned unchanged.  (An input like `"25/"`, whose sequence text
is empty, is *not* returned unchanged, because JS `Number("")` is `0`; see
the counterexample.) -/
theorem c6_next_issue :
    (∀ (y s : List Char), y ≠ [] → '/' ∉ y → (∀ ch ∈ s, ch.isDigit) →
      nextIssueNo ⟨y ++ '/' :: s⟩ =
        (⟨y⟩ : String) ++ "/" ++ padStartZero (Nat.repr (digitsVal s + 1)) s.length) ∧
    (∀ input : String,
      ((jsSplitChar '/' input).getD 0 "" = "" ∨
        (jsSplitChar '/' input)[1]? = none ∨
        (∀ t, (jsSplitChar '/' input)[1]? = some t → jsNumNat t = none)) →
      nextIssueNo input = input) := by
  constructor
  · intro y s hy hsl hdig
    have hsd : '/' ∉ s := slash_not_mem_of_digits hdig
    have hparts : jsSplitChar '/' ⟨y ++ '/' :: s⟩ = [⟨y⟩, ⟨s⟩] := by
      show (splitCharList '/' (String.toList ⟨y ++ '/' :: s⟩)).map (fun l => (⟨l⟩ : String)) = _
      rw [show String.toList ⟨y ++ '/' :: s⟩ = y ++ '/' :: s from rfl,
        splitCharList_append s hsl, splitCharList_not_mem hsd]
      rfl
    have hnum : jsNumNat ⟨s⟩ = some (digitsVal s) := by
      unfold jsNumNat
      rw [show (⟨s⟩ : String).toList = s from rfl,
        if_pos (List.all_eq_true.mpr (fun ch hch => hdig ch hch))]
    have h1 : (jsSplitChar '/' ⟨y ++ '/' :: s⟩)[1]? = some ⟨s⟩ := by
      rw [hparts]
      rfl
    have h0 : (jsSplitChar '/' ⟨y ++ '/' :: s⟩).getD 0 "" = ⟨y⟩ := by
      rw [hparts]
      rfl
    have hyne : (⟨y⟩ : String) ≠ "" := by
      intro he
      apply hy
      have hd : (⟨y⟩ : String).data = ("" : String).data := by rw [he]
      simpa using hd
    rw [nextIssueNo_of_seq h1 hnum, h0, if_neg hyne]
    rfl
  · intro input h
    rcases h with h | h | h
    · cases h1 : (jsSplitChar '/' input)[1]? with
      | none => exact nextIssueNo_of_no_second h1
      | some t =>
        cases h2 : jsNumNat t with
        | none => exact nextIssueNo_of_nan h1 h2
        | some seq =>
          rw [nextIssueNo_of_seq h1 h2, if_pos h]
    · exact nextIssueNo_of_no_second h
    · cases h1 : (jsSplitChar '/' input)[1]? with
      | none => exact nextIssueNo_of_no_second h1
      | some t => exact nextIssueNo_of_nan h1 (h t h1)

/-- C6 counterexample: `"25/"` does not decompose as a year followed by a
slash and a nonempty digit sequence, yet `nextIssueNo` does *not* return it
unchanged — JS `Number("")` is `0`, so it advances to `"25/1"`. -/
theorem c6_counterexample :
    nextIssueNo "25/" = "25/1" ∧ nextIssueNo "25/" ≠ "25/" ∧
    ¬ ∃ (y s : List Char), ("25/" : String).toList = y ++ '/' :: s ∧ y ≠ [] ∧
      '/' ∉ y ∧ s ≠ [] ∧ ∀ ch ∈ s, ch.isDigit := by
  refine ⟨by decide, by decide, ?_⟩
  rintro ⟨y, s, heq, hy, hsl, hs, -⟩
  have h3 : y ++ '/' :: s = ['2', '5', '/'] := by
    rw [show ("25/" : String).toList = ['2', '5', '/'] from rfl] at heq
    exact heq.symm
  match y, hy, hsl, h3 with
  | [], hy, _, _ => exact hy rfl
  | [a], _, _, h3 =>
    simp only [List.cons_append, List.nil_append, List.cons.injEq] at h3
    exact absurd h3.2.1 (by decide)
  | [a, b], _, _, h3 =>
    simp only [List.cons_append, List.nil_append, List.cons.injEq] at h3
    exact hs h3.2.2.2
  | a :: b :: cc :: y4, _, _, h3 =>
    simp only [List.cons_append, List.cons.injEq] at h3
    have h4 : y4 ++ '/' :: s = [] := h3.2.2.2
    simp at h4

/-- Closed witness for C6: `"25/049"` advances to `"25/050"`, and the
non-parsing `"abc"` is returned unchanged. -/
theorem c6_witness :
    nextIssueNo ⟨['2', '5'] ++ '/' :: ['0', '4', '9']⟩ =
      (⟨['2', '5']⟩ : String) ++ "/" ++
        padStartZero (Nat.repr (digitsVal ['0', '4', '9'] + 1))
          (['0', '4', '9'] : List Char).length ∧
    nextIssueNo "abc" = "abc" :=
  ⟨c6_next_issue.1 ['2', '5'] ['0', '4', '9'] (by decide) (by decide) (by decide),
    c6_next_issue.2 "abc" (Or.inr (Or.inl (by decide)))⟩

/-! ### C1: the normalizers do not enforce distinctness or disjointness -/

/-- C1 (code bug): `parseDrawCsv` emits — and the sync/bootstrap/backfill
paths then persist — a record whose six winning numbers contain a duplicate
and whose special number is among them.  The parser checks only the count
and the ranges; the repository's own audit script reports exactly such
records as problems (`duplicate number in draw`, `special number repeated in
main numbers`). -/
theorem c1_duplicate_record_emitted :
    parseDrawCsv [c1DemoRow] =
      [{ issueNo := "08/001", drawDateKey := 20080105,
         numbers := [1, 1, 2, 3, 4, 5], specialNumber := 1 }] ∧
    ¬ ([1, 1, 2, 3, 4, 5] : List Nat).Nodup ∧
    (1 : Nat) ∈ ([1, 1, 2, 3, 4, 5] : List Nat) := by
  refine ⟨by decide, by decide, by decide⟩

/-! ### C2: empty sources -/

/-- C2 counterexample: a CSV source whose rows all fail validation yields the
plain empty record list — no error value exists on that path — while the
official provider with zero usable rows is a thrown `EmptySource` error.
The claim's "fatal for the CSV provider alike" is therefore false. -/
theorem c2_counterexample :
    parseDrawCsv [c2BadCsvRow] = [] ∧
    loadOfficialCore [] = Except.error EMPTY_OFFICIAL_MSG := by
  refine ⟨by decide, rfl⟩

/-- C2 (amended): a provider row failing validation is dropped without
aborting — for the official provider a job with at least one usable row
succeeds regardless of how many rows were dropped — and a source with zero
valid rows is a fatal `EmptySource` error for the *official* provider only;
the CSV provider returns the empty list without error. -/
theorem c2_empty_source :
    (∀ rows : List OfficialRow, (∀ r ∈ rows, extractRecordOfficial r = none) →
      loadOfficialCore rows = Except.error EMPTY_OFFICIAL_MSG) ∧
    (∀ rows : List OfficialRow, ∀ r ∈ rows, extractRecordOfficial r ≠ none →
      ∃ recs, loadOfficialCore rows = Except.ok recs ∧ recs ≠ []) ∧
    (∀ rows : List CsvRow, (∀ r ∈ rows, parseCsvRow r = none) →
      parseDrawCsv rows = []) := by
  refine ⟨?_, ?_, ?_⟩
  · intro rows h
    unfold loadOfficialCore
    rw [List.filterMap_eq_nil_iff.mpr h]
    rfl
  · intro rows r hr hne
    obtain ⟨rec, hrec⟩ := Option.ne_none_iff_exists'.mp hne
    have hmem : rec ∈ rows.filterMap extractRecordOfficial :=
      List.mem_filterMap.mpr ⟨r, hr, hrec⟩
    have hlen : (rows.filterMap extractRecordOfficial).length ≠ 0 :=
      Nat.pos_iff_ne_zero.mp (List.length_pos.mpr (List.ne_nil_of_mem hmem))
    refine ⟨sortByDateKey (rows.filterMap extractRecordOfficial), ?_, ?_⟩
    · unfold loadOfficialCore
      rw [if_neg hlen]
    · intro hnil
      have hperm := List.perm_insertionSort
        (fun a b : CsvDrawRecord => a.drawDateKey ≤ b.drawDateKey)
        (rows.filterMap extractRecordOfficial)
      rw [show sortByDateKey (rows.filterMap extractRecordOfficial) =
        (rows.filterMap extractRecordOfficial).insertionSort
          (fun a b => a.drawDateKey ≤ b.drawDateKey) from rfl] at hnil
      rw [hnil] at hperm
      exact hlen (hperm.symm.length_eq ▸ rfl)
  · intro rows h
    unfold parseDrawCsv
    rw [List.filterMap_eq_nil_iff.mpr h]
    rfl

/-- Closed witness for C2 at concrete sources: an official source of one
unusable row errors, an official source with one good row among bad ones
succeeds, and a CSV source of one invalid row yields the empty list. -/
theorem c2_witness :
    loadOfficialCore [c2BadOfficialRow] = Except.error EMPTY_OFFICIAL_MSG ∧
    (∃ recs, loadOfficialCore [c2BadOfficialRow, c2GoodOfficialRow] = Except.ok recs ∧
      recs ≠ []) ∧
    parseDrawCsv [c2BadCsvRow] = [] :=
  ⟨c2_empty_source.1 [c2BadOfficialRow] (by decide),
    c2_empty_source.2.1 [c2BadOfficialRow, c2GoodOfficialRow] c2GoodOfficialRow
      (by decide) (by decide),
    c2_empty_source.2.2 [c2BadCsvRow] (by decide)⟩

/-! ### Structure lemmas for the greedy selection pass -/

theorem firstPass_nil (sel : JsMap) : firstPass [] sel = sel := rfl

theorem firstPass_cons (item : Nat × ℚ) (rest sel : JsMap) :
    firstPass (item :: rest) sel =
      if sel.length = 6 then sel
      else
        if 4 ≤ ((sel ++ [item]).map (fun p => p.1)).length ∧
            ((((sel ++ [item]).map (fun p => p.1)).filter (fun n => n % 2 == 1)).length = 0 ∨
              (((sel ++ [item]).map (fun p => p.1)).filter (fun n => n % 2 == 1)).length =
                ((sel ++ [item]).map (fun p => p.1)).length) then
          firstPass rest sel
        else firstPass rest (sel ++ [item]) := rfl

/-- A short selection accepts unconditionally: the parity guard requires the
tentative selection to have at least 4 members. -/
theorem firstPass_cons_short {sel : JsMap} (item : Nat × ℚ) (rest : JsMap)
    (h : sel.length < 3) : firstPass (item :: rest) sel = firstPass rest (sel ++ [item]) := by
  rw [firstPass_cons, if_neg (by omega), if_neg]
  intro hg
  rw [List.length_map, List.length_append] at hg
  have := hg.1
  simp only [List.length_singleton] at this
  omega

/-- The selection pass only appends: its result is the initial selection
followed by a sublist of the candidate list. -/
theorem firstPass_append : ∀ (l sel : JsMap),
    ∃ t, firstPass l sel = sel ++ t ∧ t.Sublist l
  | [], sel => ⟨[], by rw [firstPass_nil, List.append_nil], List.nil_sublist []⟩
  | item :: rest, sel => by
    rw [firstPass_cons]
    by_cases h6 : sel.length = 6
    · exact ⟨[], by rw [if_pos h6, List.append_nil], List.nil_sublist _⟩
    · rw [if_neg h6]
      by_cases hg : 4 ≤ ((sel ++ [item]).map (fun p => p.1)).length ∧
          ((((sel ++ [item]).map (fun p => p.1)).filter (fun n => n % 2 == 1)).length = 0 ∨
            (((sel ++ [item]).map (fun p => p.1)).filter (fun n => n % 2 == 1)).length =
              ((sel ++ [item]).map (fun p => p.1)).length)
      · rw [if_pos hg]
        obtain ⟨t, ht, hs⟩ := firstPass_append rest sel
        exact ⟨t, ht, hs.cons item⟩
      · rw [if_neg hg]
        obtain ⟨t, ht, hs⟩ := firstPass_append rest (sel ++ [item])
        refine ⟨item :: t, ?_, hs.cons₂ item⟩
        rw [ht, List.append_assoc]
        rfl

theorem fillLoop_of_len6 (sorted sel : JsMap) (fuel : Nat) (h : sel.length = 6) :
    fillLoop sorted sel fuel = sel := by
  cases fuel with
  | zero => rfl
  | succ n =>
    show (if sel.length < 6 then _ else sel) = sel
    rw [if_neg (by omega)]

/-- Once the running selection holds both parities, the guard can never fire
again: the pass accepts every further candidate until the selection reaches 6. -/
theorem firstPass_mixed : ∀ (l sel : JsMap),
    (∃ p ∈ sel, p.1 % 2 = 1) → (∃ p ∈ sel, p.1 % 2 = 0) → sel.length ≤ 6 →
    (firstPass l sel).length = min 6 (sel.length + l.length)
  | [], sel, _, _, h6 => by
    rw [firstPass_nil]
    simp only [List.length_nil]
    omega
  | item :: rest, sel, hodd, heven, h6 => by
    rw [firstPass_cons]
    by_cases hl6 : sel.length = 6
    · rw [if_pos hl6]
      simp only [List.length_cons]
      omega
    · rw [if_neg hl6]
      obtain ⟨p, hp, hpo⟩ := hodd
      obtain ⟨q, hq, hqe⟩ := heven
      have hpmem : p.1 ∈ (sel ++ [item]).map (fun r => r.1) :=
        List.mem_map.mpr ⟨p, List.mem_append_left _ hp, rfl⟩
      have hqmem : q.1 ∈ (sel ++ [item]).map (fun r => r.1) :=
        List.mem_map.mpr ⟨q, List.mem_append_left _ hq, rfl⟩
      have hgf : ¬ (4 ≤ ((sel ++ [item]).map (fun p => p.1)).length ∧
          ((((sel ++ [item]).map (fun p => p.1)).filter (fun n => n % 2 == 1)).length = 0 ∨
            (((sel ++ [item]).map (fun p => p.1)).filter (fun n => n % 2 == 1)).length =
              ((sel ++ [item]).map (fun p => p.1)).length)) := by
        rintro ⟨-, hcase⟩
        rcases hcase with h0 | hall
        · have hmem : p.1 ∈ ((sel ++ [item]).map (fun r => r.1)).filter (fun n => n % 2 == 1) :=
            List.mem_filter.mpr ⟨hpmem, by simp [hpo]⟩
          have := List.length_pos.mpr (List.ne_nil_of_mem hmem)
          omega
        · have hq1 := List.filter_length_eq_length.mp hall q.1 hqmem
          simp [hqe] at hq1
      rw [if_neg hgf]
      have hrec := firstPass_mixed rest (sel ++ [item])
        ⟨p, List.mem_append_left _ hp, hpo⟩ ⟨q, List.mem_append_left _ hq, hqe⟩
        (by rw [List.length_append, List.length_singleton]; omega)
      rw [hrec, List.length_append, List.length_singleton, List.length_cons]
      omega

/-- From a length-3 selection of a single parity, the pass skips candidates of
that parity, accepts the first opposite-parity candidate as the 4th member,
and then (mixed) fills up to 6; the skipped candidates were never removed
from the sorted list. -/
theorem firstPass_three_same : ∀ (l sel : JsMap) (r : Nat),
    sel.length = 3 → (∀ p ∈ sel, p.1 % 2 = r) → r ≤ 1 →
    3 ≤ l.countP (fun p => !(p.1 % 2 == r)) →
    (firstPass l sel).length = 6 ∧
      ∃ q, (firstPass l sel).take 4 = sel ++ [q] ∧ q.1 % 2 ≠ r
  | [], sel, r, _, _, _, hcount => by
    simp only [List.countP_nil] at hcount
    exact absurd hcount (by omega)
  | item :: rest, sel, r, hlen, hpar, hr, hcount => by
    rw [firstPass_cons, if_neg (show ¬ sel.length = 6 by omega)]
    by_cases hpi : item.1 % 2 = r
    · have hall : ∀ x ∈ (sel ++ [item]).map (fun p => p.1), x % 2 = r := by
        intro x hx
        obtain ⟨p, hp, hpe⟩ := List.mem_map.mp hx
        rcases List.mem_append.mp hp with h | h
        · exact hpe ▸ hpar p h
        · have hpitem : p = item := List.mem_singleton.mp h
          exact hpe ▸ hpitem ▸ hpi
      have hg : 4 ≤ ((sel ++ [item]).map (fun p => p.1)).length ∧
          ((((sel ++ [item]).map (fun p => p.1)).filter (fun n => n % 2 == 1)).length = 0 ∨
            (((sel ++ [item]).map (fun p => p.1)).filter (fun n => n % 2 == 1)).length =
              ((sel ++ [item]).map (fun p => p.1)).length) := by
        refine ⟨by rw [List.length_map, List.length_append, List.length_singleton]; omega, ?_⟩
        rcases Nat.le_one_iff_eq_zero_or_eq_one.mp hr with hr0 | hr1
        · subst hr0
          left
          rw [List.length_eq_zero, List.filter_eq_nil_iff]
          intro a ha
          have h2 := hall a ha
          simp [h2]
        · subst hr1
          right
          apply List.filter_length_eq_length.mpr
          intro a ha
          have h2 := hall a ha
          simp [h2]
      rw [if_pos hg]
      have hcount' : 3 ≤ rest.countP (fun p => !(p.1 % 2 == r)) := by
        rw [List.countP_cons] at hcount
        simp [hpi] at hcount
        exact hcount
      exact firstPass_three_same rest sel r hlen hpar hr hcount'
    · have hselne : sel ≠ [] := by
        intro h
        rw [h] at hlen
        simp at hlen
      obtain ⟨p0, hp0⟩ := List.exists_mem_of_ne_nil sel hselne
      have hp0r : p0.1 % 2 = r := hpar p0 hp0
      have hitem2 : item.1 % 2 = 0 ∨ item.1 % 2 = 1 := Nat.mod_two_eq_zero_or_one item.1
      have hm1 : ∃ p ∈ sel ++ [item], p.1 % 2 = 1 := by
        rcases Nat.le_one_iff_eq_zero_or_eq_one.mp hr with hr0 | hr1
        · exact ⟨item, List.mem_append_right _ (List.mem_singleton_self item),
            by omega⟩
        · exact ⟨p0, List.mem_append_left _ hp0, by omega⟩
      have hm0 : ∃ p ∈ sel ++ [item], p.1 % 2 = 0 := by
        rcases Nat.le_one_iff_eq_zero_or_eq_one.mp hr with hr0 | hr1
        · exact ⟨p0, List.mem_append_left _ hp0, by omega⟩
        · exact ⟨item, List.mem_append_right _ (List.mem_singleton_self item),
            by omega⟩
      have hgf : ¬ (4 ≤ ((sel ++ [item]).map (fun p => p.1)).length ∧
          ((((sel ++ [item]).map (fun p => p.1)).filter (fun n => n % 2 == 1)).length = 0 ∨
            (((sel ++ [item]).map (fun p => p.1)).filter (fun n => n % 2 == 1)).length =
              ((sel ++ [item]).map (fun p => p.1)).length)) := by
        rintro ⟨-, hcase⟩
        obtain ⟨po, hpo, hpo1⟩ := hm1
        obtain ⟨pe, hpe, hpe0⟩ := hm0
        rcases hcase with h0 | hall2
        · have hmem : po.1 ∈ ((sel ++ [item]).map (fun r => r.1)).filter (fun n => n % 2 == 1) :=
            List.mem_filter.mpr ⟨List.mem_map.mpr ⟨po, hpo, rfl⟩, by simp [hpo1]⟩
          have := List.length_pos.mpr (List.ne_nil_of_mem hmem)
          omega
        · have := List.filter_length_eq_length.mp hall2 pe.1 (List.mem_map.mpr ⟨pe, hpe, rfl⟩)
          simp [hpe0] at this
      rw [if_neg hgf]
      have hcount' : 2 ≤ rest.countP (fun p => !(p.1 % 2 == r)) := by
        rw [List.countP_cons] at hcount
        simp [hpi] at hcount
        omega
      have hrest2 : 2 ≤ rest.length :=
        le_trans hcount' (List.countP_le_length _)
      have hrun := firstPass_mixed rest (sel ++ [item]) hm1 hm0
        (by rw [List.length_append, List.length_singleton]; omega)
      have hlen4 : (sel ++ [item]).length = 4 := by
        rw [List.length_append, List.length_singleton]
        omega
      constructor
      · rw [hrun, List.length_append, List.length_singleton]
        omega
      · obtain ⟨t, ht, -⟩ := firstPass_append rest (sel ++ [item])
        refine ⟨item, ?_, hpi⟩
        rw [ht, show (4 : Nat) = (sel ++ [item]).length from hlen4.symm, List.take_left]

/-- The full run of the parity-guarded pass over a 49-candidate list holding
25 odd-keyed and 24 even-keyed entries: the pass alone reaches the full 6
picks (the fallback fill stage is never needed), the selection is a sublist
of the candidate order, its first three members are exactly the first three
candidates, and by its 4th member it holds both parities. -/
theorem firstPass_run (l : JsMap) (hlen : l.length = 49)
    (hodd : l.countP (fun p => p.1 % 2 == 1) = 25)
    (heven : l.countP (fun p => !(p.1 % 2 == 1)) = 24) :
    (firstPass l []).length = 6 ∧ (firstPass l []).Sublist l ∧
    (firstPass l []).take 3 = l.take 3 ∧
    (∃ p ∈ (firstPass l []).take 4, p.1 % 2 = 1) ∧
    (∃ p ∈ (firstPass l []).take 4, p.1 % 2 = 0) := by
  rcases l with - | ⟨a, - | ⟨b, - | ⟨c, rest⟩⟩⟩
  · simp at hlen
  · simp at hlen
  · simp at hlen
  have hrlen : rest.length = 46 := by
    simp only [List.length_cons] at hlen
    omega
  have hstep : firstPass (a :: b :: c :: rest) [] = firstPass rest [a, b, c] := by
    rw [firstPass_cons_short _ _ (by simp)]
    have s2 : ([] : JsMap) ++ [a] = [a] := List.nil_append [a]
    rw [s2, firstPass_cons_short _ _ (by simp), firstPass_cons_short _ _ (by simp)]
    rfl
  rw [hstep]
  obtain ⟨t, ht, hsub⟩ := firstPass_append rest [a, b, c]
  have hsubl : (firstPass rest [a, b, c]).Sublist (a :: b :: c :: rest) := by
    rw [ht]
    exact hsub.append_left [a, b, c]
  have htake3 : (firstPass rest [a, b, c]).take 3 = (a :: b :: c :: rest).take 3 := by
    rw [ht, show (3 : Nat) = ([a, b, c] : JsMap).length from rfl, List.take_left]
    rfl
  have htake4 : (firstPass rest [a, b, c]).take 4 = [a, b, c] ++ t.take 1 := by
    rw [ht, List.take_append_eq_append_take]
    rfl
  by_cases ho : ∃ p ∈ ([a, b, c] : JsMap), p.1 % 2 = 1
  · by_cases he : ∃ p ∈ ([a, b, c] : JsMap), p.1 % 2 = 0
    · have hrun := firstPass_mixed rest [a, b, c] ho he (by simp)
      refine ⟨by rw [hrun]; simp; omega, hsubl, htake3, ?_, ?_⟩
      · obtain ⟨p, hp, hp1⟩ := ho
        exact ⟨p, by rw [htake4]; exact List.mem_append_left _ hp, hp1⟩
      · obtain ⟨p, hp, hp0⟩ := he
        exact ⟨p, by rw [htake4]; exact List.mem_append_left _ hp, hp0⟩
    · -- no even member: a, b, c are all odd
      have hall1 : ∀ p ∈ ([a, b, c] : JsMap), p.1 % 2 = 1 := by
        intro p hp
        rcases Nat.mod_two_eq_zero_or_one p.1 with h | h
        · exact absurd ⟨p, hp, h⟩ he
        · exact h
      have hcrest : rest.countP (fun p => !(p.1 % 2 == 1)) = 24 := by
        have h1 := hall1 a (by simp)
        have h2 := hall1 b (by simp)
        have h3 := hall1 c (by simp)
        simp only [List.countP_cons, h1, h2, h3] at heven
        simpa using heven
      have hrun := firstPass_three_same rest [a, b, c] 1 rfl hall1 (by omega)
        (by omega)
      obtain ⟨hlen6, q, hq4, hqpar⟩ := hrun
      refine ⟨hlen6, hsubl, htake3, ?_, ?_⟩
      · exact ⟨a, by rw [hq4]; exact List.mem_append_left _ (by simp),
          hall1 a (by simp)⟩
      · refine ⟨q, by rw [hq4]; exact List.mem_append_right _ (by simp), ?_⟩
        rcases Nat.mod_two_eq_zero_or_one q.1 with h | h
        · exact h
        · exact absurd h hqpar
  · -- no odd member: a, b, c are all even
    have hall0 : ∀ p ∈ ([a, b, c] : JsMap), p.1 % 2 = 0 := by
      intro p hp
      rcases Nat.mod_two_eq_zero_or_one p.1 with h | h
      · exact h
      · exact absurd ⟨p, hp, h⟩ ho
    have hcrest1 : rest.countP (fun p => p.1 % 2 == 1) = 25 := by
      have h1 := hall0 a (by simp)
      have h2 := hall0 b (by simp)
      have h3 := hall0 c (by simp)
      simp only [List.countP_cons, h1, h2, h3] at hodd
      simpa using hodd
    have hcrest : rest.countP (fun p => !(p.1 % 2 == 0)) = 25 := by
      rw [List.countP_congr (q := fun p => p.1 % 2 == 1) ?_]
      · exact hcrest1
      · intro x hx
        rcases Nat.mod_two_eq_zero_or_one x.1 with h | h <;> simp [h]
    have hrun := firstPass_three_same rest [a, b, c] 0 rfl hall0 (by omega)
      (by omega)
    obtain ⟨hlen6, q, hq4, hqpar⟩ := hrun
    refine ⟨hlen6, hsubl, htake3, ?_, ?_⟩
    · refine ⟨q, by rw [hq4]; exact List.mem_append_right _ (by simp), ?_⟩
      rcases Nat.mod_two_eq_zero_or_one q.1 with h | h
      · exact absurd h hqpar
      · exact h
    · exact ⟨a, by rw [hq4]; exact List.mem_append_left _ (by simp),
        hall0 a (by simp)⟩

/-! ### The stable descending sort -/

theorem sortByScoreDesc_perm (l : JsMap) : (sortByScoreDesc l).Perm l :=
  List.perm_insertionSort scoreGE l

theorem sortByScoreDesc_sorted (l : JsMap) : (sortByScoreDesc l).Sorted scoreGE :=
  List.sorted_insertionSort scoreGE l

/-- Inserting an element whose key is below every key of an already
stable-ordered list keeps the key-stability invariant: among equal scores,
keys ascend.  The element is never placed after an equal-score member,
matching the stability of the JS sort. -/
theorem orderedInsert_stable_keys (x : Nat × ℚ) :
    ∀ (L : JsMap), L.Pairwise (fun a b => a.2 = b.2 → a.1 < b.1) →
      (∀ y ∈ L, x.1 < y.1) →
      (L.orderedInsert scoreGE x).Pairwise (fun a b => a.2 = b.2 → a.1 < b.1)
  | [], _, _ => by simp [List.orderedInsert]
  | y :: ys, hp, hk => by
    rw [List.orderedInsert]
    by_cases hxy : scoreGE x y
    · rw [if_pos hxy]
      exact List.pairwise_cons.mpr ⟨fun z hz _ => hk z hz, hp⟩
    · rw [if_neg hxy]
      have hpc := List.pairwise_cons.mp hp
      refine List.pairwise_cons.mpr ⟨?_, orderedInsert_stable_keys x ys hpc.2
        (fun z hz => hk z (List.mem_cons_of_mem y hz))⟩
      intro z hz
      rcases (List.mem_orderedInsert scoreGE).mp hz with hzx | hzy
      · subst hzx
        intro hsc
        exact absurd (show scoreGE z y from le_of_eq hsc) hxy
      · exact hpc.1 z hzy

/-- Stability of the descending insertion sort on a strictly-ascending-key
list: whenever two entries carry equal scores, the smaller key precedes. -/
theorem sortByScoreDesc_stable_keys : ∀ (l : JsMap),
    l.Pairwise (fun a b => a.1 < b.1) →
    (sortByScoreDesc l).Pairwise (fun a b => a.2 = b.2 → a.1 < b.1)
  | [], _ => List.Pairwise.nil
  | x :: xs, hp => by
    have hpc := List.pairwise_cons.mp hp
    show (List.orderedInsert scoreGE x (List.insertionSort scoreGE xs)).Pairwise _
    exact orderedInsert_stable_keys x _ (sortByScoreDesc_stable_keys xs hpc.2)
      (fun y hy => hpc.1 y ((List.mem_insertionSort scoreGE).mp hy))

/-! ### The 1..49 candidate universe -/

theorem univ_entries_facts (s : Nat → ℚ) :
    (ALL_NUMBERS.map (fun n => (n, s n))).length = 49 ∧
    (ALL_NUMBERS.map (fun n => (n, s n))).countP (fun p => p.1 % 2 == 1) = 25 ∧
    (ALL_NUMBERS.map (fun n => (n, s n))).countP (fun p => !(p.1 % 2 == 1)) = 24 ∧
    (ALL_NUMBERS.map (fun n => (n, s n))).Pairwise (fun a b => a.1 < b.1) := by
  refine ⟨?_, ?_, ?_, ?_⟩
  · rw [List.length_map]
    decide
  · rw [List.countP_map]
    have hcg : List.countP ((fun p : Nat × ℚ => p.1 % 2 == 1) ∘ fun n => (n, s n)) ALL_NUMBERS
        = List.countP (fun n => n % 2 == 1) ALL_NUMBERS :=
      List.countP_congr (fun x _ => Iff.rfl)
    exact hcg.trans (by decide)
  · rw [List.countP_map]
    have hcg : List.countP ((fun p : Nat × ℚ => !(p.1 % 2 == 1)) ∘ fun n => (n, s n)) ALL_NUMBERS
        = List.countP (fun n => !(n % 2 == 1)) ALL_NUMBERS :=
      List.countP_congr (fun x _ => Iff.rfl)
    exact hcg.trans (by decide)
  · rw [List.pairwise_map]
    have : List.Pairwise (fun a b => a < b) ALL_NUMBERS := by decide
    exact this

theorem pickTopSix_eq (scores : JsMap) (rp : String) :
    pickTopSix scores rp =
      (fillLoop (sortByScoreDesc scores) (firstPass (sortByScoreDesc scores) []) 6).enum.map
        (fun p => (⟨p.2.1, p.1 + 1, p.2.2, rp ++ " score=" ++ toFixed4 p.2.2⟩ : Pick)) := rfl

theorem take_enumFrom {α : Type} : ∀ (l : List α) (n k : Nat),
    (List.enumFrom n l).take k = List.enumFrom n (l.take k)
  | [], n, k => by simp
  | x :: xs, n, 0 => rfl
  | x :: xs, n, k + 1 => by
    show ((n, x) :: List.enumFrom (n + 1) xs).take (k + 1) =
      List.enumFrom n (x :: xs.take k)
    rw [List.take_succ_cons, take_enumFrom xs (n + 1) k]
    rfl

theorem take_enum {α : Type} (l : List α) (k : Nat) :
    l.enum.take k = (l.take k).enum :=
  take_enumFrom l 0 k

theorem pairwise_enumFrom {α : Type} {R : α → α → Prop} : ∀ (l : List α) (n : Nat),
    l.Pairwise R →
    (List.enumFrom n l).Pairwise (fun a b => a.1 < b.1 ∧ R a.2 b.2)
  | [], _, _ => List.Pairwise.nil
  | x :: xs, n, h => by
    have hpc := List.pairwise_cons.mp h
    show ((n, x) :: List.enumFrom (n + 1) xs).Pairwise _
    refine List.pairwise_cons.mpr ⟨?_, pairwise_enumFrom xs (n + 1) hpc.2⟩
    intro z hz
    have hm := List.mem_enumFrom hz
    have h1 := hm.1
    have h2 := hm.2.1
    have hidx : z.1 - (n + 1) < xs.length := by omega
    have hmem : z.2 ∈ xs := by
      rw [hm.2.2]
      exact List.getElem_mem hidx
    exact ⟨by omega, hpc.1 z.2 hmem⟩

theorem mem_enum_of_mem {α : Type} {l : List α} {p : α} (hp : p ∈ l) :
    ∃ z ∈ l.enum, z.2 = p := by
  have hm : p ∈ l.enum.map Prod.snd := by
    rw [List.enum_map_snd]
    exact hp
  obtain ⟨z, hz, hze⟩ := List.mem_map.mp hm
  exact ⟨z, hz, hze⟩

/-- The packaged behavior of `pickTopSix` over the 1..49 universe with an
arbitrary score assignment: the selection is exactly the greedy pass's (the
fill stage is a no-op), has 6 members drawn in order from the sorted
candidates, starts with the top three candidates, and holds both parities
among its first four members; projecting the picks back to (number, score)
pairs recovers the selection, and the ranks are 1..6 in order. -/
theorem pickTopSix_spec (s : Nat → ℚ) (rp : String) :
    ∃ sel : JsMap,
      pickTopSix (ALL_NUMBERS.map (fun n => (n, s n))) rp =
        sel.enum.map (fun p => (⟨p.2.1, p.1 + 1, p.2.2,
          rp ++ " score=" ++ toFixed4 p.2.2⟩ : Pick)) ∧
      (pickTopSix (ALL_NUMBERS.map (fun n => (n, s n))) rp).map
        (fun p => (p.number, p.score)) = sel ∧
      (pickTopSix (ALL_NUMBERS.map (fun n => (n, s n))) rp).map (fun p => p.rank) =
        (List.range 6).map (fun i => i + 1) ∧
      sel.length = 6 ∧
      sel.Sublist (sortByScoreDesc (ALL_NUMBERS.map (fun n => (n, s n)))) ∧
      sel.take 3 = (sortByScoreDesc (ALL_NUMBERS.map (fun n => (n, s n)))).take 3 ∧
      (∃ p ∈ sel.take 4, p.1 % 2 = 1) ∧ (∃ p ∈ sel.take 4, p.1 % 2 = 0) := by
  obtain ⟨hl, hc1, hc2, -⟩ := univ_entries_facts s
  have hperm := sortByScoreDesc_perm (ALL_NUMBERS.map (fun n => (n, s n)))
  have hrun := firstPass_run (sortByScoreDesc (ALL_NUMBERS.map (fun n => (n, s n))))
    (hperm.length_eq.trans hl)
    ((hperm.countP_eq _).trans hc1)
    ((hperm.countP_eq _).trans hc2)
  have hpk : pickTopSix (ALL_NUMBERS.map (fun n => (n, s n))) rp =
      (firstPass (sortByScoreDesc (ALL_NUMBERS.map (fun n => (n, s n)))) []).enum.map
        (fun p => (⟨p.2.1, p.1 + 1, p.2.2,
          rp ++ " score=" ++ toFixed4 p.2.2⟩ : Pick)) := by
    rw [pickTopSix_eq, fillLoop_of_len6 _ _ 6 hrun.1]
  refine ⟨firstPass (sortByScoreDesc (ALL_NUMBERS.map (fun n => (n, s n)))) [], hpk,
    ?_, ?_, hrun.1, hrun.2.1, hrun.2.2.1, hrun.2.2.2.1, hrun.2.2.2.2⟩
  · rw [hpk, List.map_map,
      show ((fun p : Pick => (p.number, p.score)) ∘ (fun p : Nat × (Nat × ℚ) =>
        (⟨p.2.1, p.1 + 1, p.2.2, rp ++ " score=" ++ toFixed4 p.2.2⟩ : Pick))) = Prod.snd
        from funext fun z => Prod.mk.eta,
      List.enum_map_snd]
  · rw [hpk, List.map_map,
      show ((fun p : Pick => p.rank) ∘ (fun p : Nat × (Nat × ℚ) =>
        (⟨p.2.1, p.1 + 1, p.2.2, rp ++ " score=" ++ toFixed4 p.2.2⟩ : Pick))) =
        ((fun i => i + 1) ∘ Prod.fst) from rfl,
      ← List.map_map, List.enum_map_fst, hrun.1]

/-! ### C4, C9, C10: selection-stage claim theorems -/

/-- C4: for every composite score map over 1..49, the greedy selection never
lets the running selection become entirely odd or entirely even once it has
at least 4 members — already the first four ranked picks hold both parities —
and a skipped candidate stays available, so the final selection still has
exactly 6 picks and contains at least one odd and at least one even number.
In particular a window whose top candidates are all even still yields an odd
pick. -/
theorem c4_parity_guard (s : Nat → ℚ) (rp : String) :
    (pickTopSix (ALL_NUMBERS.map (fun n => (n, s n))) rp).length = 6 ∧
    ((pickTopSix (ALL_NUMBERS.map (fun n => (n, s n))) rp).take 4).any
      (fun p => p.number % 2 == 1) = true ∧
    ((pickTopSix (ALL_NUMBERS.map (fun n => (n, s n))) rp).take 4).any
      (fun p => p.number % 2 == 0) = true ∧
    (pickTopSix (ALL_NUMBERS.map (fun n => (n, s n))) rp).any
      (fun p => p.number % 2 == 1) = true ∧
    (pickTopSix (ALL_NUMBERS.map (fun n => (n, s n))) rp).any
      (fun p => p.number % 2 == 0) = true := by
  obtain ⟨sel, hpk, -, -, hlen, -, -, hoddm, hevenm⟩ := pickTopSix_spec s rp
  have hmem4 : ∀ z ∈ (sel.take 4).enum,
      (⟨z.2.1, z.1 + 1, z.2.2, rp ++ " score=" ++ toFixed4 z.2.2⟩ : Pick) ∈
        (pickTopSix (ALL_NUMBERS.map (fun n => (n, s n))) rp).take 4 := by
    intro z hz
    rw [hpk, ← List.map_take, take_enum]
    exact List.mem_map.mpr ⟨z, hz, rfl⟩
  have hodd4 : ((pickTopSix (ALL_NUMBERS.map (fun n => (n, s n))) rp).take 4).any
      (fun p => p.number % 2 == 1) = true := by
    rw [List.any_eq_true]
    obtain ⟨p, hp, hp1⟩ := hoddm
    obtain ⟨z, hz, hze⟩ := mem_enum_of_mem hp
    refine ⟨_, hmem4 z hz, ?_⟩
    show (z.2.1 % 2 == 1) = true
    rw [hze]
    simp [hp1]
  have heven4 : ((pickTopSix (ALL_NUMBERS.map (fun n => (n, s n))) rp).take 4).any
      (fun p => p.number % 2 == 0) = true := by
    rw [List.any_eq_true]
    obtain ⟨p, hp, hp0⟩ := hevenm
    obtain ⟨z, hz, hze⟩ := mem_enum_of_mem hp
    refine ⟨_, hmem4 z hz, ?_⟩
    show (z.2.1 % 2 == 0) = true
    rw [hze]
    simp [hp0]
  refine ⟨?_, hodd4, heven4, ?_, ?_⟩
  · rw [hpk, List.length_map, List.enum_length, hlen]
  · rw [List.any_eq_true]
    obtain ⟨p, hp, hpb⟩ := List.any_eq_true.mp hodd4
    exact ⟨p, List.mem_of_mem_take hp, hpb⟩
  · rw [List.any_eq_true]
    obtain ⟨p, hp, hpb⟩ := List.any_eq_true.mp heven4
    exact ⟨p, List.mem_of_mem_take hp, hpb⟩

/-- Closed witness for C4 at a score map whose top candidates are all even
(evens score 1, odds score 0): the final selection still contains an odd
number among its first four picks. -/
theorem c4_witness :
    ((pickTopSix (ALL_NUMBERS.map
        (fun n => (n, if n % 2 = 0 then (1 : ℚ) else 0))) "x").take 4).any
      (fun p => p.number % 2 == 1) = true :=
  (c4_parity_guard (fun n => if n % 2 = 0 then (1 : ℚ) else 0) "x").2.1

/-- C9: candidates are ordered descending by composite score with ties broken
by the numeric value ascending (the JS sort is stable and the map iterates
1..49 in order), and consequently along the ranked picks the ranks strictly
ascend and two picks with equal scores appear with the smaller number at the
better rank.  The output is a function of the score map alone. -/
theorem c9_tie_break (s : Nat → ℚ) (rp : String) :
    (sortByScoreDesc (ALL_NUMBERS.map (fun n => (n, s n)))).Pairwise
      (fun a b => b.2 ≤ a.2 ∧ (a.2 = b.2 → a.1 < b.1)) ∧
    (pickTopSix (ALL_NUMBERS.map (fun n => (n, s n))) rp).Pairwise
      (fun p q => p.rank < q.rank ∧ (p.score = q.score → p.number < q.number)) := by
  obtain ⟨-, -, -, hkeys⟩ := univ_entries_facts s
  have h1 : (sortByScoreDesc (ALL_NUMBERS.map (fun n => (n, s n)))).Pairwise
      (fun a b => b.2 ≤ a.2 ∧ (a.2 = b.2 → a.1 < b.1)) :=
    List.Pairwise.and (sortByScoreDesc_sorted _) (sortByScoreDesc_stable_keys _ hkeys)
  refine ⟨h1, ?_⟩
  obtain ⟨sel, hpk, -, -, -, hsub, -, -, -⟩ := pickTopSix_spec s rp
  have hselp := h1.sublist hsub
  have henp := pairwise_enumFrom sel 0 hselp
  rw [hpk, List.pairwise_map]
  refine henp.imp ?_
  rintro ⟨i, a⟩ ⟨j, b⟩ ⟨hij, -, hst⟩
  refine ⟨?_, hst⟩
  show i + 1 < j + 1
  omega

/-- Closed witness for C9 at the constant score map: the sorted candidates
and the ranked picks carry the stated pairwise orderings. -/
theorem c9_witness :
    (sortByScoreDesc (ALL_NUMBERS.map (fun n => (n, (0 : ℚ))))).Pairwise
      (fun a b => b.2 ≤ a.2 ∧ (a.2 = b.2 → a.1 < b.1)) ∧
    (pickTopSix (ALL_NUMBERS.map (fun n => (n, (0 : ℚ)))) "x").Pairwise
      (fun p q => p.rank < q.rank ∧ (p.score = q.score → p.number < q.number)) :=
  c9_tie_break (fun _ => (0 : ℚ)) "x"

/-- C10: the picks at ranks 1, 2, 3 are exactly the three highest candidates
of the sorted order — the parity guard only applies from the 4th member on,
so deferral can only reshuffle ranks 4..6 — and the rank-1 pick's score is
maximal over the whole composite map. -/
theorem c10_top_three (s : Nat → ℚ) (rp : String) :
    ((pickTopSix (ALL_NUMBERS.map (fun n => (n, s n))) rp).map
        (fun p => (p.number, p.score))).take 3 =
      (sortByScoreDesc (ALL_NUMBERS.map (fun n => (n, s n)))).take 3 ∧
    (ALL_NUMBERS.map (fun n => (n, s n))).all
      (fun q => decide (q.2 ≤ (((pickTopSix (ALL_NUMBERS.map (fun n => (n, s n))) rp).map
        (fun p => p.score)).headD 0))) = true := by
  obtain ⟨sel, hpk, hns, -, hlen, hsub, htake3, -, -⟩ := pickTopSix_spec s rp
  have hperm := sortByScoreDesc_perm (ALL_NUMBERS.map (fun n => (n, s n)))
  obtain ⟨hl, -, -, -⟩ := univ_entries_facts s
  have hslen : (sortByScoreDesc (ALL_NUMBERS.map (fun n => (n, s n)))).length = 49 :=
    hperm.length_eq.trans hl
  refine ⟨by rw [hns, htake3], ?_⟩
  rcases hsorted : sortByScoreDesc (ALL_NUMBERS.map (fun n => (n, s n))) with - | ⟨w, ws⟩
  · rw [hsorted] at hslen
    simp at hslen
  have hscores : (pickTopSix (ALL_NUMBERS.map (fun n => (n, s n))) rp).map
      (fun p => p.score) = sel.map (fun z => z.2) := by
    rw [hpk, List.map_map,
      show ((fun p : Pick => p.score) ∘ (fun p : Nat × (Nat × ℚ) =>
        (⟨p.2.1, p.1 + 1, p.2.2, rp ++ " score=" ++ toFixed4 p.2.2⟩ : Pick))) =
        ((fun z : Nat × ℚ => z.2) ∘ Prod.snd) from rfl,
      ← List.map_map, List.enum_map_snd]
  have hselw : ∃ vs, sel = w :: vs := by
    rcases hsel : sel with - | ⟨v, vs⟩
    · rw [hsel] at hlen
      simp at hlen
    · rw [hsel, hsorted] at htake3
      simp only [List.take_succ_cons, List.cons.injEq] at htake3
      exact ⟨vs, by rw [htake3.1]⟩
  obtain ⟨vs, hselw⟩ := hselw
  have hhead : (((pickTopSix (ALL_NUMBERS.map (fun n => (n, s n))) rp).map
      (fun p => p.score)).headD 0) = w.2 := by
    rw [hscores, hselw]
    rfl
  rw [List.all_eq_true]
  intro q hq
  rw [decide_eq_true_eq, hhead]
  have hqs : q ∈ sortByScoreDesc (ALL_NUMBERS.map (fun n => (n, s n))) :=
    hperm.mem_iff.mpr hq
  rw [hsorted] at hqs
  have hsorted2 := sortByScoreDesc_sorted (ALL_NUMBERS.map (fun n => (n, s n)))
  rw [hsorted] at hsorted2
  rcases List.mem_cons.mp hqs with h | h
  · exact le_of_eq (by rw [h])
  · exact List.rel_of_sorted_cons hsorted2 q h

/-- Closed witness for C10 at the constant score map. -/
theorem c10_witness :
    ((pickTopSix (ALL_NUMBERS.map (fun n => (n, (0 : ℚ)))) "x").map
        (fun p => (p.number, p.score))).take 3 =
      (sortByScoreDesc (ALL_NUMBERS.map (fun n => (n, (0 : ℚ))))).take 3 ∧
    (ALL_NUMBERS.map (fun n => (n, (0 : ℚ)))).all
      (fun q => decide (q.2 ≤ (((pickTopSix (ALL_NUMBERS.map
        (fun n => (n, (0 : ℚ)))) "x").map (fun p => p.score)).headD 0))) = true :=
  c10_top_three (fun _ => (0 : ℚ)) "x"

/-! ### C3: the strategy result -/

theorem take_min_80 {α : Type} (l : List α) : l.take (min 80 l.length) = l.take 80 := by
  rcases le_or_lt l.length 80 with h | h
  · rw [min_eq_right h, List.take_length, List.take_of_length_le h]
  · rw [min_eq_left (le_of_lt h)]

theorem compositeEntries_eq (strategy : StrategyId) (window : List Draw) :
    compositeEntries strategy window =
      ALL_NUMBERS.map (fun n => (n, compositeScore strategy
        ((jsGet (normalize (frequencyMap window)) n).getD 0)
        ((jsGet (normalize (omissionMap window)) n).getD 0)
        ((jsGet (normalize (weightedRecencyMap window)) n).getD 0))) := rfl

theorem generateStrategyResult_eq (strategy : StrategyId) (recentDraws : List Draw) :
    generateStrategyResult strategy recentDraws =
      { strategy := strategy
        strategyVersion := strategyIdText strategy
        picks := pickTopSix
          (compositeEntries strategy (recentDraws.take (min 80 recentDraws.length)))
          (strategyName strategy) } := rfl

/-- C3: for every strategy and window, the result carries exactly 6 picks
whose ranks are 1..6 in selection order, each pick's reason is the strategy
name followed by its numeric score, each (number, score) pair is an entry of
the composite score map of the used window, and the window is capped at the
80 most recent draws. -/
theorem c3_strategy_result (strategy : StrategyId) (recentDraws : List Draw) :
    (generateStrategyResult strategy recentDraws).picks.length = 6 ∧
    ((generateStrategyResult strategy recentDraws).picks.map (fun p => p.rank)) =
      [1, 2, 3, 4, 5, 6] ∧
    ((generateStrategyResult strategy recentDraws).picks.map (fun p => p.reason)) =
      (generateStrategyResult strategy recentDraws).picks.map
        (fun p => strategyName strategy ++ " score=" ++ toFixed4 p.score) ∧
    ((generateStrategyResult strategy recentDraws).picks.map
        (fun p => (p.number, p.score))).all
      (fun pr => decide (pr ∈ compositeEntries strategy
        (recentDraws.take (min 80 recentDraws.length)))) = true ∧
    generateStrategyResult strategy recentDraws =
      generateStrategyResult strategy (recentDraws.take 80) := by
  obtain ⟨sel, hpk, hns, hranks, hlen, hsub, -, -, -⟩ :=
    pickTopSix_spec (fun n => compositeScore strategy
      ((jsGet (normalize (frequencyMap (recentDraws.take (min 80 recentDraws.length)))) n).getD 0)
      ((jsGet (normalize (omissionMap (recentDraws.take (min 80 recentDraws.length)))) n).getD 0)
      ((jsGet (normalize (weightedRecencyMap
        (recentDraws.take (min 80 recentDraws.length)))) n).getD 0))
      (strategyName strategy)
  have hpicks : (generateStrategyResult strategy recentDraws).picks =
      pickTopSix (ALL_NUMBERS.map (fun n => (n, compositeScore strategy
        ((jsGet (normalize (frequencyMap
          (recentDraws.take (min 80 recentDraws.length)))) n).getD 0)
        ((jsGet (normalize (omissionMap
          (recentDraws.take (min 80 recentDraws.length)))) n).getD 0)
        ((jsGet (normalize (weightedRecencyMap
          (recentDraws.take (min 80 recentDraws.length)))) n).getD 0))))
        (strategyName strategy) := by
    rw [generateStrategyResult_eq, compositeEntries_eq]
  refine ⟨?_, ?_, ?_, ?_, ?_⟩
  · rw [hpicks, hpk, List.length_map, List.enum_length, hlen]
  · rw [hpicks, hranks]
    decide
  · rw [hpicks, hpk, List.map_map, List.map_map]
    rfl
  · rw [List.all_eq_true]
    intro pr hpr
    rw [decide_eq_true_eq]
    rw [hpicks, hns] at hpr
    have hsorted : pr ∈ sortByScoreDesc (ALL_NUMBERS.map (fun n => (n, compositeScore strategy
        ((jsGet (normalize (frequencyMap
          (recentDraws.take (min 80 recentDraws.length)))) n).getD 0)
        ((jsGet (normalize (omissionMap
          (recentDraws.take (min 80 recentDraws.length)))) n).getD 0)
        ((jsGet (normalize (weightedRecencyMap
          (recentDraws.take (min 80 recentDraws.length)))) n).getD 0)))) :=
      hsub.subset hpr
    rw [compositeEntries_eq]
    exact (sortByScoreDesc_perm _).mem_iff.mp hsorted
  · rw [generateStrategyResult_eq, generateStrategyResult_eq]
    rw [take_min_80 recentDraws, take_min_80 (recentDraws.take 80), List.take_take,
      Nat.min_self]

/-- Closed witness for C3 at a concrete strategy and window. -/
theorem c3_witness :
    (generateStrategyResult StrategyId.hot_v1 [⟨[1, 2, 3, 4, 5, 6]⟩]).picks.length = 6 ∧
    ((generateStrategyResult StrategyId.hot_v1 [⟨[1, 2, 3, 4, 5, 6]⟩]).picks.map
      (fun p => p.rank)) = [1, 2, 3, 4, 5, 6] :=
  ⟨(c3_strategy_result StrategyId.hot_v1 [⟨[1, 2, 3, 4, 5, 6]⟩]).1,
    (c3_strategy_result StrategyId.hot_v1 [⟨[1, 2, 3, 4, 5, 6]⟩]).2.1⟩

/-! ### C5: the review engine -/

theorem nodup_key_filter_length_le_one {α : Type} (f : α → Nat) :
    ∀ (l : List α), (l.map f).Nodup → ∀ i : Nat,
      (l.filter (fun x => f x == i)).length ≤ 1
  | [], _, i => by simp
  | x :: xs, h, i => by
    have hpc := List.nodup_cons.mp (by rw [List.map_cons] at h; exact h)
    rw [List.filter_cons]
    by_cases hx : (f x == i) = true
    · have hnil : xs.filter (fun y => f y == i) = [] := by
        rw [List.filter_eq_nil_iff]
        intro y hy hyi
        apply hpc.1
        have h1 : f y = i := by simpa using hyi
        have h2 : f x = i := by simpa using hx
        rw [h2, ← h1]
        exact List.mem_map_of_mem f hy
      simp [hx, hnil]
    · simp only [hx, if_false]
      exact nodup_key_filter_length_le_one f xs hpc.2 i

theorem filter_key_eq_singleton {α : Type} [DecidableEq α] (f : α → Nat) {l : List α}
    {x : α} (h : (l.map f).Nodup) (hx : x ∈ l) :
    l.filter (fun y => f y == f x) = [x] := by
  have hle := nodup_key_filter_length_le_one f l h (f x)
  have hmem : x ∈ l.filter (fun y => f y == f x) :=
    List.mem_filter.mpr ⟨hx, by simp⟩
  rcases hres : l.filter (fun y => f y == f x) with - | ⟨y, - | ⟨z, t⟩⟩
  · rw [hres] at hmem
    exact absurd hmem (List.not_mem_nil x)
  · rw [hres] at hmem
    rw [List.mem_singleton.mp hmem]
  · rw [hres] at hle
    simp at hle

theorem applyReview_eq (draw : DrawRow) (run : PredictionRunRow) (db : Db) :
    applyReview draw run db =
      { draws := db.draws
        runs := db.runs.map (fun r =>
          if r.id = run.id then
            { r with status := PredictionStatus.REVIEWED
                     hitCount := some (matchedOf draw.numbers run).length
                     hitRate := some (round4 (((matchedOf draw.numbers run).length : ℚ) / 6)) }
          else r)
        reviews :=
          if db.reviews.any (fun rv => rv.runId == run.id) then
            db.reviews.map (fun rv =>
              if rv.runId = run.id then
                { rv with matchedNumbers := matchedOf draw.numbers run
                          hitCount := (matchedOf draw.numbers run).length
                          hitRate := round4 (((matchedOf draw.numbers run).length : ℚ) / 6) }
              else rv)
          else
            db.reviews ++ [⟨run.id, draw.id, matchedOf draw.numbers run,
              (matchedOf draw.numbers run).length,
              round4 (((matchedOf draw.numbers run).length : ℚ) / 6)⟩] } := rfl

theorem reviewIssue_none {db : Db} {issueNo : String}
    (h : db.draws.find? (fun d => d.issueNo == issueNo) = none) :
    reviewIssue db issueNo = (db, 0) := by
  simp only [reviewIssue, h]

theorem reviewIssue_some {db : Db} {issueNo : String} {draw : DrawRow}
    (h : db.draws.find? (fun d => d.issueNo == issueNo) = some draw) :
    reviewIssue db issueNo =
      ((pendingFor db issueNo).foldl (fun acc run => applyReview draw run acc) db,
        (pendingFor db issueNo).length) := by
  simp only [reviewIssue, h]

theorem applyReview_draws (draw : DrawRow) (run : PredictionRunRow) (db : Db) :
    (applyReview draw run db).draws = db.draws := rfl

theorem foldl_applyReview_draws (draw : DrawRow) : ∀ (pending : List PredictionRunRow) (db : Db),
    ((pending.foldl (fun acc run => applyReview draw run acc) db).draws) = db.draws
  | [], _ => rfl
  | p :: rest, db => by
    rw [List.foldl_cons, foldl_applyReview_draws draw rest (applyReview draw p db),
      applyReview_draws]


theorem length_le_one_mem_singleton {α : Type} {l : List α} {x : α}
    (hle : l.length ≤ 1) (hx : x ∈ l) : l = [x] := by
  rcases l with - | ⟨y, - | ⟨z, t⟩⟩
  · exact absurd hx (List.not_mem_nil x)
  · rw [List.mem_singleton.mp hx]
  · simp at hle

theorem runsById_def (db : Db) (i : Nat) :
    runsById db i = db.runs.filter (fun r => r.id == i) := rfl

theorem reviewsFor_def (db : Db) (i : Nat) :
    reviewsFor db i = db.reviews.filter (fun rv => rv.runId == i) := rfl

theorem applyReview_runs (draw : DrawRow) (run : PredictionRunRow) (db : Db) :
    (applyReview draw run db).runs = db.runs.map (fun r =>
      if r.id = run.id then
        { r with status := PredictionStatus.REVIEWED,
                 hitCount := some (matchedOf draw.numbers run).length,
                 hitRate := some (round4 (((matchedOf draw.numbers run).length : ℚ) / 6)) }
      else r) := rfl

theorem applyReview_reviews (draw : DrawRow) (run : PredictionRunRow) (db : Db) :
    (applyReview draw run db).reviews =
      if db.reviews.any (fun rv => rv.runId == run.id) then
        db.reviews.map (fun rv =>
          if rv.runId = run.id then
            { rv with matchedNumbers := matchedOf draw.numbers run,
                      hitCount := (matchedOf draw.numbers run).length,
                      hitRate := round4 (((matchedOf draw.numbers run).length : ℚ) / 6) }
          else rv)
      else
        db.reviews ++ [⟨run.id, draw.id, matchedOf draw.numbers run,
          (matchedOf draw.numbers run).length,
          round4 (((matchedOf draw.numbers run).length : ℚ) / 6)⟩] := rfl

theorem applyReview_runsById_ne (draw : DrawRow) (run : PredictionRunRow) (db : Db)
    {i : Nat} (h : i ≠ run.id) :
    runsById (applyReview draw run db) i = runsById db i := by
  rw [runsById_def, runsById_def, applyReview_runs, List.filter_map]
  have hcong : db.runs.filter ((fun r : PredictionRunRow => r.id == i) ∘ (fun r =>
      if r.id = run.id then
        { r with status := PredictionStatus.REVIEWED,
                 hitCount := some (matchedOf draw.numbers run).length,
                 hitRate := some (round4 (((matchedOf draw.numbers run).length : ℚ) / 6)) }
      else r)) =
      db.runs.filter (fun r => r.id == i) := by
    refine List.filter_congr (fun r _ => ?_)
    by_cases hri : r.id = run.id
    · simp [Function.comp, hri]
    · simp [Function.comp, hri]
  rw [hcong]
  refine (List.map_congr_left (fun r hr => ?_)).trans (List.map_id _)
  have hri : r.id = i := by simpa using (List.mem_filter.mp hr).2
  rw [if_neg (by omega)]
  rfl

theorem applyReview_runsById_self (draw : DrawRow) (run : PredictionRunRow) (db : Db) :
    runsById (applyReview draw run db) run.id =
      (runsById db run.id).map (fun r =>
        { r with status := PredictionStatus.REVIEWED,
                 hitCount := some (matchedOf draw.numbers run).length,
                 hitRate := some (round4 (((matchedOf draw.numbers run).length : ℚ) / 6)) }) := by
  rw [runsById_def, runsById_def, applyReview_runs, List.filter_map]
  have hcong : db.runs.filter ((fun r : PredictionRunRow => r.id == run.id) ∘ (fun r =>
      if r.id = run.id then
        { r with status := PredictionStatus.REVIEWED,
                 hitCount := some (matchedOf draw.numbers run).length,
                 hitRate := some (round4 (((matchedOf draw.numbers run).length : ℚ) / 6)) }
      else r)) =
      db.runs.filter (fun r => r.id == run.id) := by
    refine List.filter_congr (fun r _ => ?_)
    by_cases hri : r.id = run.id
    · simp [Function.comp, hri]
    · simp [Function.comp, hri]
  rw [hcong]
  refine List.map_congr_left (fun r hr => ?_)
  have hri : r.id = run.id := by simpa using (List.mem_filter.mp hr).2
  rw [if_pos hri]

theorem applyReview_reviewsFor_ne (draw : DrawRow) (run : PredictionRunRow) (db : Db)
    {i : Nat} (h : i ≠ run.id) :
    reviewsFor (applyReview draw run db) i = reviewsFor db i := by
  rw [reviewsFor_def, reviewsFor_def, applyReview_reviews]
  by_cases hex : db.reviews.any (fun rv => rv.runId == run.id)
  · rw [if_pos hex, List.filter_map]
    have hcong : db.reviews.filter ((fun rv : ReviewRow => rv.runId == i) ∘ (fun rv =>
        if rv.runId = run.id then
          { rv with matchedNumbers := matchedOf draw.numbers run,
                    hitCount := (matchedOf draw.numbers run).length,
                    hitRate := round4 (((matchedOf draw.numbers run).length : ℚ) / 6) }
        else rv)) =
        db.reviews.filter (fun rv => rv.runId == i) := by
      refine List.filter_congr (fun rv _ => ?_)
      by_cases hri : rv.runId = run.id
      · simp [Function.comp, hri]
      · simp [Function.comp, hri]
    rw [hcong]
    refine (List.map_congr_left (fun rv hrv => ?_)).trans (List.map_id _)
    have hri : rv.runId = i := by simpa using (List.mem_filter.mp hrv).2
    rw [if_neg (by omega)]
    rfl
  · rw [if_neg hex, List.filter_append]
    have hone : ([⟨run.id, draw.id, matchedOf draw.numbers run,
        (matchedOf draw.numbers run).length,
        round4 (((matchedOf draw.numbers run).length : ℚ) / 6)⟩] : List ReviewRow).filter
        (fun rv => rv.runId == i) = [] := by
      simp [Ne.symm h]
    rw [hone, List.append_nil]

theorem applyReview_reviewsFor_self (draw : DrawRow) (run : PredictionRunRow) (db : Db)
    (hle : (reviewsFor db run.id).length ≤ 1) :
    ∃ did, reviewsFor (applyReview draw run db) run.id =
      [⟨run.id, did, matchedOf draw.numbers run, (matchedOf draw.numbers run).length,
        round4 (((matchedOf draw.numbers run).length : ℚ) / 6)⟩] := by
  rw [reviewsFor_def, applyReview_reviews]
  rw [reviewsFor_def] at hle
  by_cases hex : db.reviews.any (fun rv => rv.runId == run.id)
  · obtain ⟨rv0, hrv0, hrv0id⟩ := List.any_eq_true.mp hex
    have hrv0eq : rv0.runId = run.id := by simpa using hrv0id
    have hmem : rv0 ∈ db.reviews.filter (fun rv => rv.runId == run.id) :=
      List.mem_filter.mpr ⟨hrv0, hrv0id⟩
    have hsingle : db.reviews.filter (fun rv => rv.runId == run.id) = [rv0] :=
      length_le_one_mem_singleton hle hmem
    rw [if_pos hex, List.filter_map]
    have hcong : db.reviews.filter ((fun rv : ReviewRow => rv.runId == run.id) ∘ (fun rv =>
        if rv.runId = run.id then
          { rv with matchedNumbers := matchedOf draw.numbers run,
                    hitCount := (matchedOf draw.numbers run).length,
                    hitRate := round4 (((matchedOf draw.numbers run).length : ℚ) / 6) }
        else rv)) =
        db.reviews.filter (fun rv => rv.runId == run.id) := by
      refine List.filter_congr (fun rv _ => ?_)
      by_cases hri : rv.runId = run.id
      · simp [Function.comp, hri]
      · simp [Function.comp, hri]
    rw [hcong, hsingle]
    refine ⟨rv0.drawId, ?_⟩
    rw [List.map_singleton, if_pos hrv0eq]
    have hrec : ({ rv0 with matchedNumbers := matchedOf draw.numbers run, hitCount := (matchedOf draw.numbers run).length, hitRate := round4 (((matchedOf draw.numbers run).length : ℚ) / 6) } : ReviewRow) = ⟨run.id, rv0.drawId, matchedOf draw.numbers run, (matchedOf draw.numbers run).length, round4 (((matchedOf draw.numbers run).length : ℚ) / 6)⟩ := by
      have hshape : ({ rv0 with matchedNumbers := matchedOf draw.numbers run, hitCount := (matchedOf draw.numbers run).length, hitRate := round4 (((matchedOf draw.numbers run).length : ℚ) / 6) } : ReviewRow) = ⟨rv0.runId, rv0.drawId, matchedOf draw.numbers run, (matchedOf draw.numbers run).length, round4 (((matchedOf draw.numbers run).length : ℚ) / 6)⟩ := rfl
      rw [hshape, hrv0eq]
    rw [hrec]
  · rw [if_neg hex, List.filter_append]
    have hnil : db.reviews.filter (fun rv => rv.runId == run.id) = [] := by
      rw [List.filter_eq_nil_iff]
      intro rv hrv hpred
      exact hex (List.any_eq_true.mpr ⟨rv, hrv, hpred⟩)
    rw [hnil, List.nil_append]
    exact ⟨draw.id, by simp⟩

theorem foldl_applyReview_untouched (draw : DrawRow) :
    ∀ (pending : List PredictionRunRow) (db : Db) (i : Nat),
      (∀ run' ∈ pending, run'.id ≠ i) →
      runsById (pending.foldl (fun acc run => applyReview draw run acc) db) i =
        runsById db i ∧
      reviewsFor (pending.foldl (fun acc run => applyReview draw run acc) db) i =
        reviewsFor db i
  | [], _, _, _ => ⟨rfl, rfl⟩
  | p :: rest, db, i, h => by
    rw [List.foldl_cons]
    have hrec := foldl_applyReview_untouched draw rest (applyReview draw p db) i
      (fun r hr => h r (List.mem_cons_of_mem p hr))
    have hne : i ≠ p.id := fun he => h p (List.mem_cons_self p rest) he.symm
    exact ⟨hrec.1.trans (applyReview_runsById_ne draw p db hne),
      hrec.2.trans (applyReview_reviewsFor_ne draw p db hne)⟩

theorem applyReview_runs_shape (draw : DrawRow) (run : PredictionRunRow) (db : Db) :
    ∀ r' ∈ (applyReview draw run db).runs, ∃ r ∈ db.runs,
      r'.id = r.id ∧ r'.issueNo = r.issueNo ∧
      (r' = r ∨ r'.status = PredictionStatus.REVIEWED) := by
  intro r' hr'
  rw [applyReview_runs] at hr'
  obtain ⟨r, hr, hre⟩ := List.mem_map.mp hr'
  by_cases hid : r.id = run.id
  · rw [if_pos hid] at hre
    exact ⟨r, hr, by rw [← hre], by rw [← hre], Or.inr (by rw [← hre])⟩
  · rw [if_neg hid] at hre
    exact ⟨r, hr, by rw [hre], by rw [hre], Or.inl hre.symm⟩

theorem foldl_applyReview_runs_shape (draw : DrawRow) :
    ∀ (pending : List PredictionRunRow) (db : Db),
      ∀ r' ∈ ((pending.foldl (fun acc run => applyReview draw run acc) db)).runs,
        ∃ r ∈ db.runs, r'.id = r.id ∧ r'.issueNo = r.issueNo ∧
          (r' = r ∨ r'.status = PredictionStatus.REVIEWED)
  | [], db, r', hr' => ⟨r', hr', rfl, rfl, Or.inl rfl⟩
  | p :: rest, db, r', hr' => by
    rw [List.foldl_cons] at hr'
    obtain ⟨r1, hr1, hid1, hiss1, hst1⟩ :=
      foldl_applyReview_runs_shape draw rest (applyReview draw p db) r' hr'
    obtain ⟨r, hr, hid2, hiss2, hst2⟩ := applyReview_runs_shape draw p db r1 hr1
    refine ⟨r, hr, hid1.trans hid2, hiss1.trans hiss2, ?_⟩
    rcases hst1 with h1 | h1
    · rcases hst2 with h2 | h2
      · exact Or.inl (h1.trans h2)
      · exact Or.inr (by rw [h1]; exact h2)
    · exact Or.inr h1

theorem applyReview_preserves_reviewed (draw : DrawRow) (run : PredictionRunRow) (db : Db)
    (i : Nat) (h : ∀ r ∈ db.runs, r.id = i → r.status = PredictionStatus.REVIEWED) :
    ∀ r ∈ (applyReview draw run db).runs, r.id = i →
      r.status = PredictionStatus.REVIEWED := by
  intro r' hr' hid
  obtain ⟨r, hr, hide, -, hst⟩ := applyReview_runs_shape draw run db r' hr'
  rcases hst with h1 | h1
  · rw [h1]
    exact h r hr (by rw [← hide, hid])
  · exact h1

theorem foldl_applyReview_preserves_reviewed (draw : DrawRow) :
    ∀ (pending : List PredictionRunRow) (db : Db) (i : Nat),
      (∀ r ∈ db.runs, r.id = i → r.status = PredictionStatus.REVIEWED) →
      ∀ r ∈ ((pending.foldl (fun acc run => applyReview draw run acc) db)).runs,
        r.id = i → r.status = PredictionStatus.REVIEWED
  | [], _, _, h => h
  | p :: rest, db, i, h => by
    rw [List.foldl_cons]
    exact foldl_applyReview_preserves_reviewed draw rest (applyReview draw p db) i
      (applyReview_preserves_reviewed draw p db i h)

theorem applyReview_sets_reviewed (draw : DrawRow) (run : PredictionRunRow) (db : Db) :
    ∀ r ∈ (applyReview draw run db).runs, r.id = run.id →
      r.status = PredictionStatus.REVIEWED := by
  intro r' hr' hid
  rw [applyReview_runs] at hr'
  obtain ⟨r, hr, hre⟩ := List.mem_map.mp hr'
  by_cases hid2 : r.id = run.id
  · rw [if_pos hid2] at hre
    rw [← hre]
  · rw [if_neg hid2] at hre
    rw [← hre] at hid
    exact absurd hid hid2

theorem foldl_applyReview_member_reviewed (draw : DrawRow) :
    ∀ (pending : List PredictionRunRow) (db : Db) (run0 : PredictionRunRow),
      run0 ∈ pending →
      ∀ r ∈ ((pending.foldl (fun acc run => applyReview draw run acc) db)).runs,
        r.id = run0.id → r.status = PredictionStatus.REVIEWED
  | [], _, _, h0 => absurd h0 (List.not_mem_nil _)
  | p :: rest, db, run0, h0 => by
    rw [List.foldl_cons]
    rcases List.mem_cons.mp h0 with h | h
    · subst h
      exact foldl_applyReview_preserves_reviewed draw rest (applyReview draw run0 db) run0.id
        (applyReview_sets_reviewed draw run0 db)
    · exact foldl_applyReview_member_reviewed draw rest (applyReview draw p db) run0 h

theorem pendingFor_def (db : Db) (issueNo : String) :
    pendingFor db issueNo = db.runs.filter (fun r =>
      r.issueNo == issueNo && decide (r.status = PredictionStatus.PENDING)) := rfl

/-- C5: reviewing an issue with no stored draw returns a zero-reviewed result
and changes no state; with a stored draw, every pending run for the issue
ends up Reviewed carrying hit count `|matched|` and hit rate
`round4(hitCount/6)`, with the matched numbers (picks ∩ winning numbers,
special excluded, sorted ascending) recorded in exactly one review row per
run; and re-invoking the review without underlying changes reviews zero runs
and leaves the store identical. -/
theorem c5_review_issue (db : Db) (issueNo : String) :
    (db.draws.find? (fun d => d.issueNo == issueNo) = none →
      reviewIssue db issueNo = (db, 0)) ∧
    (∀ draw, db.draws.find? (fun d => d.issueNo == issueNo) = some draw →
      (db.runs.map (fun r => r.id)).Nodup →
      (db.reviews.map (fun rv => rv.runId)).Nodup →
      ∀ run ∈ pendingFor db issueNo,
        runsById (reviewIssue db issueNo).1 run.id =
          [{ run with status := PredictionStatus.REVIEWED, hitCount := some (matchedOf draw.numbers run).length, hitRate := some (round4 (((matchedOf draw.numbers run).length : ℚ) / 6)) }] ∧
        ∃ did, reviewsFor (reviewIssue db issueNo).1 run.id =
          [⟨run.id, did, matchedOf draw.numbers run, (matchedOf draw.numbers run).length,
            round4 (((matchedOf draw.numbers run).length : ℚ) / 6)⟩]) ∧
    reviewIssue (reviewIssue db issueNo).1 issueNo = ((reviewIssue db issueNo).1, 0) := by
  refine ⟨fun h => reviewIssue_none h, ?_, ?_⟩
  · intro draw hfind hNr hNv run hrun
    have hrunmem : run ∈ db.runs := (List.mem_filter.mp hrun).1
    obtain ⟨l1, l2, hP⟩ := List.append_of_mem hrun
    have hNp : ((pendingFor db issueNo).map (fun r => r.id)).Nodup :=
      hNr.sublist ((List.filter_sublist db.runs).map (fun r => r.id))
    rw [hP, List.map_append, List.map_cons] at hNp
    have hNmid := (List.nodup_middle.mp hNp)
    have hnotmem := (List.nodup_cons.mp hNmid).1
    have hne1 : ∀ r' ∈ l1, r'.id ≠ run.id := by
      intro r' hr' he
      apply hnotmem
      rw [← he]
      exact List.mem_append_left _ (List.mem_map_of_mem _ hr')
    have hne2 : ∀ r' ∈ l2, r'.id ≠ run.id := by
      intro r' hr' he
      apply hnotmem
      rw [← he]
      exact List.mem_append_right _ (List.mem_map_of_mem _ hr')
    have hu1 := foldl_applyReview_untouched draw l1 db run.id
      (fun r' hr' => hne1 r' hr')
    have hsingle : runsById db run.id = [run] := by
      rw [runsById_def]
      exact filter_key_eq_singleton (fun r => r.id) hNr hrunmem
    have hle : (reviewsFor (l1.foldl (fun acc r => applyReview draw r acc) db) run.id).length ≤ 1 := by
      rw [hu1.2, reviewsFor_def]
      exact nodup_key_filter_length_le_one (fun rv => rv.runId) db.reviews hNv run.id
    obtain ⟨did, hdid⟩ := applyReview_reviewsFor_self draw run
      (l1.foldl (fun acc r => applyReview draw r acc) db) hle
    have hu2 := foldl_applyReview_untouched draw l2
      (applyReview draw run (l1.foldl (fun acc r => applyReview draw r acc) db)) run.id
      (fun r' hr' => hne2 r' hr')
    rw [reviewIssue_some hfind]
    constructor
    · show runsById ((pendingFor db issueNo).foldl (fun acc r => applyReview draw r acc) db)
        run.id = _
      rw [hP, List.foldl_append, List.foldl_cons, hu2.1, applyReview_runsById_self,
        hu1.1, hsingle, List.map_singleton]
    · refine ⟨did, ?_⟩
      show reviewsFor ((pendingFor db issueNo).foldl (fun acc r => applyReview draw r acc) db)
        run.id = _
      rw [hP, List.foldl_append, List.foldl_cons, hu2.2, hdid]
  · rcases hfind : db.draws.find? (fun d => d.issueNo == issueNo) with - | draw
    · rw [reviewIssue_none hfind]
      exact reviewIssue_none hfind
    · rw [reviewIssue_some hfind]
      have hd : ((pendingFor db issueNo).foldl
          (fun acc r => applyReview draw r acc) db).draws = db.draws :=
        foldl_applyReview_draws draw (pendingFor db issueNo) db
      have hfind2 : ((pendingFor db issueNo).foldl
          (fun acc r => applyReview draw r acc) db).draws.find?
          (fun d => d.issueNo == issueNo) = some draw := by
        rw [hd]
        exact hfind
      have hpend : pendingFor ((pendingFor db issueNo).foldl
          (fun acc r => applyReview draw r acc) db) issueNo = [] := by
        rw [pendingFor_def, List.filter_eq_nil_iff]
        intro r hr hpred
        have hpred2 := hpred
        simp only [Bool.and_eq_true, decide_eq_true_eq] at hpred2
        have hpd : r.status = PredictionStatus.PENDING := hpred2.2
        obtain ⟨r0, hr0, hid, hiss, hst⟩ :=
          foldl_applyReview_runs_shape draw (pendingFor db issueNo) db r hr
        rcases hst with he | he
        · have hmem0 : r0 ∈ pendingFor db issueNo := by
            rw [pendingFor_def]
            refine List.mem_filter.mpr ⟨hr0, ?_⟩
            rw [← he]
            exact hpred
          have := foldl_applyReview_member_reviewed draw (pendingFor db issueNo) db r0
            hmem0 r hr hid
          rw [hpd] at this
          exact absurd this (by decide)
        · rw [hpd] at he
          exact absurd he (by decide)
      show reviewIssue ((pendingFor db issueNo).foldl
        (fun acc r => applyReview draw r acc) db) issueNo = _
      rw [reviewIssue_some hfind2, hpend]
      rfl

/-- Closed witness for C5 at a one-draw, one-pending-run store. -/
theorem c5_witness :
    runsById (reviewIssue c5DemoDb "25/001").1 c5DemoRun.id =
      [{ c5DemoRun with status := PredictionStatus.REVIEWED, hitCount := some (matchedOf [1, 2, 3, 4, 5, 6] c5DemoRun).length, hitRate := some (round4 (((matchedOf [1, 2, 3, 4, 5, 6] c5DemoRun).length : ℚ) / 6)) }] ∧
    (∃ did, reviewsFor (reviewIssue c5DemoDb "25/001").1 c5DemoRun.id =
      [⟨c5DemoRun.id, did, matchedOf [1, 2, 3, 4, 5, 6] c5DemoRun,
        (matchedOf [1, 2, 3, 4, 5, 6] c5DemoRun).length,
        round4 (((matchedOf [1, 2, 3, 4, 5, 6] c5DemoRun).length : ℚ) / 6)⟩]) ∧
    reviewIssue (reviewIssue c5DemoDb "25/001").1 "25/001" =
      ((reviewIssue c5DemoDb "25/001").1, 0) := by
  have h := c5_review_issue c5DemoDb "25/001"
  have hb := h.2.1 ⟨1, "25/001", [1, 2, 3, 4, 5, 6], 7⟩ (by decide) (by decide) (by decide)
    c5DemoRun (by decide)
  exact ⟨hb.1, hb.2, h.2.2⟩

/-! ### C7: the continuity auditor -/

theorem dedupSortAsc_mem (l : List Nat) (x : Nat) : x ∈ dedupSortAsc l ↔ x ∈ l := by
  show x ∈ l.dedup.insertionSort (fun a b => a ≤ b) ↔ x ∈ l
  rw [(List.perm_insertionSort (fun a b : Nat => a ≤ b) l.dedup).mem_iff, List.mem_dedup]

instance : IsTotal Nat (fun a b : Nat => a ≤ b) := ⟨fun a b => Nat.le_total a b⟩

instance : IsTrans Nat (fun a b : Nat => a ≤ b) := ⟨fun _ _ _ h1 h2 => Nat.le_trans h1 h2⟩

theorem dedupSortAsc_sorted (l : List Nat) :
    (dedupSortAsc l).Sorted (fun a b : Nat => a ≤ b) :=
  List.sorted_insertionSort (fun a b : Nat => a ≤ b) l.dedup

theorem sorted_headD_le {l : List Nat} (hs : l.Sorted (fun a b : Nat => a ≤ b)) :
    ∀ b ∈ l, l.headD 0 ≤ b := by
  cases l with
  | nil => exact fun b hb => absurd hb (List.not_mem_nil b)
  | cons x xs =>
    intro b hb
    rcases List.mem_cons.mp hb with h | h
    · rw [h]
      exact Nat.le_refl x
    · exact List.rel_of_sorted_cons hs b h

theorem sorted_le_getLastD : ∀ (l : List Nat), l.Sorted (fun a b : Nat => a ≤ b) →
    ∀ b ∈ l, b ≤ l.getLastD 0
  | [], _, b, hb => absurd hb (List.not_mem_nil b)
  | [x], _, b, hb => by
    rw [List.mem_singleton.mp hb]
    exact Nat.le_refl x
  | x :: y :: t, hs, b, hb => by
    have hs2 : (y :: t).Sorted (fun a b : Nat => a ≤ b) := hs.of_cons
    have hrel := List.rel_of_sorted_cons hs
    show b ≤ (y :: t).getLastD 0
    rcases List.mem_cons.mp hb with h | h
    · rw [h]
      exact Nat.le_trans (hrel y (List.mem_cons_self y t))
        (sorted_le_getLastD (y :: t) hs2 y (List.mem_cons_self y t))
    · exact sorted_le_getLastD (y :: t) hs2 b h

theorem headD_mem {l : List Nat} (h : l ≠ []) : l.headD 0 ∈ l := by
  cases l with
  | nil => exact absurd rfl h
  | cons x xs => exact List.mem_cons_self x xs

theorem getLastD_mem : ∀ {l : List Nat}, l ≠ [] → l.getLastD 0 ∈ l
  | [], h => absurd rfl h
  | [x], _ => List.mem_singleton_self x
  | x :: y :: t, _ => by
    show (y :: t).getLastD 0 ∈ x :: y :: t
    exact List.mem_cons_of_mem x (getLastD_mem (List.cons_ne_nil y t))

theorem missingSeqs_def (sorted : List Nat) :
    missingSeqs sorted =
      ((List.range (sorted.getLastD 0 + 1 - sorted.headD 0)).map
        (fun i => i + sorted.headD 0)).filter (fun i => !sorted.contains i) := rfl

theorem contains_eq_false_iff (l : List Nat) (k : Nat) :
    (l.contains k = false) ↔ k ∉ l := by
  constructor
  · intro h hm
    have he : l.contains k = true := List.elem_eq_true_of_mem hm
    rw [he] at h
    cases h
  · intro h
    rcases hc : l.contains k with - | -
    · rfl
    · exact absurd (List.mem_of_elem_eq_true hc) h

/-- The gap loop computes exactly the integers that lie between some observed
value and some observed value but are not themselves observed. -/
theorem mem_missingSeqs {seqList : List Nat} (hne : seqList ≠ []) (k : Nat) :
    k ∈ missingSeqs (dedupSortAsc seqList) ↔
      ((∃ a ∈ seqList, a ≤ k) ∧ (∃ b ∈ seqList, k ≤ b) ∧ k ∉ seqList) := by
  have hsne : dedupSortAsc seqList ≠ [] := by
    obtain ⟨a, ha⟩ := List.exists_mem_of_ne_nil seqList hne
    exact List.ne_nil_of_mem ((dedupSortAsc_mem seqList a).mpr ha)
  have hsorted := dedupSortAsc_sorted seqList
  have hmnmem : (dedupSortAsc seqList).headD 0 ∈ seqList :=
    (dedupSortAsc_mem seqList _).mp (headD_mem hsne)
  have hmxmem : (dedupSortAsc seqList).getLastD 0 ∈ seqList :=
    (dedupSortAsc_mem seqList _).mp (getLastD_mem hsne)
  rw [missingSeqs_def]
  constructor
  · intro hk
    obtain ⟨hkrange, hkcont⟩ := List.mem_filter.mp hk
    obtain ⟨i, hi, hik⟩ := List.mem_map.mp hkrange
    have hilt := List.mem_range.mp hi
    have hknot : k ∉ dedupSortAsc seqList := by
      refine (contains_eq_false_iff _ k).mp ?_
      rcases hc : (dedupSortAsc seqList).contains k with - | -
      · rfl
      · rw [hc] at hkcont
        cases hkcont
    refine ⟨⟨(dedupSortAsc seqList).headD 0, hmnmem, by omega⟩,
      ⟨(dedupSortAsc seqList).getLastD 0, hmxmem, by omega⟩, ?_⟩
    intro hmem
    exact hknot ((dedupSortAsc_mem seqList k).mpr hmem)
  · rintro ⟨⟨a, ha, hak⟩, ⟨b, hb, hkb⟩, hknot⟩
    have hmnle : (dedupSortAsc seqList).headD 0 ≤ a :=
      sorted_headD_le hsorted a ((dedupSortAsc_mem seqList a).mpr ha)
    have hmxge : b ≤ (dedupSortAsc seqList).getLastD 0 :=
      sorted_le_getLastD _ hsorted b ((dedupSortAsc_mem seqList b).mpr hb)
    refine List.mem_filter.mpr ⟨?_, ?_⟩
    · refine List.mem_map.mpr ⟨k - (dedupSortAsc seqList).headD 0,
        List.mem_range.mpr (by omega), by omega⟩
    · have hns : k ∉ dedupSortAsc seqList := by
        intro hmem
        exact hknot ((dedupSortAsc_mem seqList k).mp hmem)
      rw [(contains_eq_false_iff _ k).mpr hns]
      rfl

theorem auditStep_none {st : AuditState} {d : AuditDraw} (h : parseIssue d.issueNo = none) :
    auditStep st d =
      { st with problems := st.problems ++ [d.issueNo ++ ": invalid issue format"] } := by
  simp only [auditStep, h]

theorem auditStep_none_problems {st : AuditState} {d : AuditDraw}
    (h : parseIssue d.issueNo = none) :
    (auditStep st d).problems = st.problems ++ [d.issueNo ++ ": invalid issue format"] := by
  rw [auditStep_none h]

theorem double_ite_suffix (base : List String) (c1 c2 : Prop) [Decidable c1]
    [Decidable c2] (x y : List String) :
    ∃ t, (if c2 then (if c1 then base ++ x else base) ++ y
          else (if c1 then base ++ x else base)) = base ++ t := by
  by_cases h1 : c1
  · by_cases h2 : c2
    · exact ⟨x ++ y, by rw [if_pos h1, if_pos h2, List.append_assoc]⟩
    · exact ⟨x, by rw [if_pos h1, if_neg h2]⟩
  · by_cases h2 : c2
    · exact ⟨y, by rw [if_neg h1, if_pos h2]⟩
    · exact ⟨[], by rw [if_neg h1, if_neg h2, List.append_nil]⟩

theorem auditStep_problems_mono (st : AuditState) (d : AuditDraw) :
    ∃ t, (auditStep st d).problems = st.problems ++ t := by
  cases hp : parseIssue d.issueNo with
  | none => exact ⟨[d.issueNo ++ ": invalid issue format"], auditStep_none_problems hp⟩
  | some yr =>
    obtain ⟨year, seq⟩ := yr
    simp only [auditStep, hp]
    exact double_ite_suffix st.problems _ _ _ _

theorem foldl_auditStep_problems_mono : ∀ (l : List AuditDraw) (st : AuditState),
    ∃ t, (l.foldl auditStep st).problems = st.problems ++ t
  | [], st => ⟨[], (List.append_nil _).symm⟩
  | d :: rest, st => by
    rw [List.foldl_cons]
    obtain ⟨t1, h1⟩ := auditStep_problems_mono st d
    obtain ⟨t2, h2⟩ := foldl_auditStep_problems_mono rest (auditStep st d)
    exact ⟨t1 ++ t2, by rw [h2, h1, List.append_assoc]⟩

theorem auditProblems_def (draws : List AuditDraw) :
    auditProblems draws =
      (draws.foldl auditStep ⟨[], [], 0⟩).problems ++
        (((draws.foldl auditStep ⟨[], [], 0⟩).byYear.insertionSort
          (fun a b => a.1 ≤ b.1)).map (fun p => yearProblem p.1 p.2)).flatten := rfl

theorem yearProblem_eq (year : String) (seqList : List Nat) :
    yearProblem year seqList =
      if missingSeqs (dedupSortAsc seqList) = [] then []
      else
        [year ++ ": missing issue seq count=" ++
          Nat.repr (missingSeqs (dedupSortAsc seqList)).length ++ " sample=" ++
          String.intercalate ","
            (((missingSeqs (dedupSortAsc seqList)).take 10).map Nat.repr)] := by
  by_cases h : missingSeqs (dedupSortAsc seqList) = [] <;> simp [yearProblem, h]

/-- C7: the continuity audit reports, per year, as gaps exactly the integers
absent from the year's observed sequence list that lie between an observed
value below and an observed value above (so nothing outside the observed
min–max range); a year reports a problem line exactly when such gaps exist,
with their count and the first 10 as sample; the scan never aborts early — a
record with an unparsable issue id contributes its problem line to the final
accumulated list wherever it sits in the history; the report prints a summary
count, at most the first 200 problem details and a truncation note only when
more than 200 exist; and the spec's synthetic year "08" with observed
sequences 1, 2, 4, 5 reports exactly one gap with sample 3 and count 1. -/
theorem c7_audit :
    (∀ (seqList : List Nat), seqList ≠ [] → ∀ k : Nat,
        (k ∈ missingSeqs (dedupSortAsc seqList) ↔
          ((∃ a ∈ seqList, a ≤ k) ∧ (∃ b ∈ seqList, k ≤ b) ∧ k ∉ seqList))) ∧
    (∀ (year : String) (seqList : List Nat),
        yearProblem year seqList =
          if missingSeqs (dedupSortAsc seqList) = [] then []
          else
            [year ++ ": missing issue seq count=" ++
              Nat.repr (missingSeqs (dedupSortAsc seqList)).length ++ " sample=" ++
              String.intercalate ","
                (((missingSeqs (dedupSortAsc seqList)).take 10).map Nat.repr)]) ∧
    (∀ (draws : List AuditDraw) (d : AuditDraw), d ∈ draws →
        parseIssue d.issueNo = none →
        (d.issueNo ++ ": invalid issue format") ∈ auditProblems draws) ∧
    (∀ (draws : List AuditDraw), draws ≠ [] → auditProblems draws ≠ [] →
        auditReport draws =
          ["Audit summary: total_draws=" ++ Nat.repr draws.length] ++
            (["Audit found " ++ Nat.repr (auditProblems draws).length ++ " problem(s):"] ++
              ((auditProblems draws).take 200).map (fun p => "- " ++ p) ++
              (if 200 < (auditProblems draws).length then
                ["... truncated " ++ Nat.repr ((auditProblems draws).length - 200) ++
                  " more problem(s)"]
              else []))) ∧
    (∀ (sorted : List Nat), ((missingSeqs sorted).take 10).length ≤ 10 ∧
        ∀ (draws : List AuditDraw), ((auditProblems draws).take 200).length ≤ 200) ∧
    (auditProblems
        [⟨"08/001", [1, 2, 3, 4, 5, 6], 7, 1⟩, ⟨"08/002", [1, 2, 3, 4, 5, 6], 7, 2⟩,
         ⟨"08/004", [1, 2, 3, 4, 5, 6], 7, 3⟩, ⟨"08/005", [1, 2, 3, 4, 5, 6], 7, 4⟩] =
      ["08: missing issue seq count=1 sample=3"]) := by
  refine ⟨fun seqList hne k => mem_missingSeqs hne k, yearProblem_eq, ?_, ?_, ?_, ?_⟩
  · intro draws d hd hnone
    obtain ⟨l1, l2, hsplit⟩ := List.append_of_mem hd
    subst hsplit
    rw [auditProblems_def, List.foldl_append, List.foldl_cons]
    obtain ⟨t2, h2⟩ :=
      foldl_auditStep_problems_mono l2 (auditStep (l1.foldl auditStep ⟨[], [], 0⟩) d)
    rw [h2, auditStep_none_problems hnone]
    exact List.mem_append_left _ (List.mem_append_left _
      (List.mem_append_right _ (List.mem_singleton_self _)))
  · intro draws hne hpne
    have hl : ¬ draws.length = 0 := fun h => hne (List.length_eq_zero.mp h)
    have hp : ¬ (auditProblems draws).length = 0 :=
      fun h => hpne (List.length_eq_zero.mp h)
    simp only [auditReport, if_neg hl, if_neg hp]
  · intro sorted
    refine ⟨?_, ?_⟩
    · rw [List.length_take]
      exact min_le_left _ _
    · intro draws
      rw [List.length_take]
      exact min_le_left _ _
  · rfl

theorem c7_witness :
    ((3 : Nat) ∈ missingSeqs (dedupSortAsc [1, 2, 4, 5])) ∧
    ("bad: invalid issue format" ∈
      auditProblems [⟨"bad", [1, 2, 3, 4, 5, 6], 7, 0⟩]) ∧
    (auditReport
        [⟨"08/001", [1, 2, 3, 4, 5, 6], 7, 1⟩, ⟨"08/002", [1, 2, 3, 4, 5, 6], 7, 2⟩,
         ⟨"08/004", [1, 2, 3, 4, 5, 6], 7, 3⟩, ⟨"08/005", [1, 2, 3, 4, 5, 6], 7, 4⟩] =
      ["Audit summary: total_draws=4", "Audit found 1 problem(s):",
        "- 08: missing issue seq count=1 sample=3"]) := by
  refine ⟨?_, ?_, ?_⟩
  · exact (c7_audit.1 [1, 2, 4, 5] (by decide) 3).mpr (by decide)
  · exact c7_audit.2.2.1 [⟨"bad", [1, 2, 3, 4, 5, 6], 7, 0⟩]
      ⟨"bad", [1, 2, 3, 4, 5, 6], 7, 0⟩ (by decide) (by rfl)
  · have h := c7_audit.2.2.2.1
      [⟨"08/001", [1, 2, 3, 4, 5, 6], 7, 1⟩, ⟨"08/002", [1, 2, 3, 4, 5, 6], 7, 2⟩,
       ⟨"08/004", [1, 2, 3, 4, 5, 6], 7, 3⟩, ⟨"08/005", [1, 2, 3, 4, 5, 6], 7, 4⟩]
      (by decide) (by decide)
    rw [h]
    rfl

end MarkSix
